import Mathlib

/-!
Verification of the luax AST and code generator (`src/ast.rs`, `src/ast_codegen.rs`).

The AST types `Expr`, `Stmt`, `Block`, `Lhs` and the traversals
`get_used_vars`, `restricted_generate_code`, `unrestricted_generate_code`,
`Lhs.build_set`, `Lhs.build_new_local` are translated from the Rust source.

The builder layer (`codegen.rs`: `FunctionBuilder`, `ModuleBuilder`,
`LoopControlInfo`, `VarLocation` and the `write_*` helpers) is declared in
`lib.rs` but its source file is absent from the repository snapshot, so it is
modelled from the specification (sections 4.2, 5 and 6): basic blocks are
ordered opcode lists, `move_forward` starts a fresh basic block and moves the
cursor to it, `scoped` and `with_lci` are push/use/pop resource scopes that
also pop on error paths, and variable resolution walks the lexical scope
stack, then the upvalue table, then falls back to the dynamic "this"
environment.  The opcode vocabulary is the one listed in section 6 of the
specification, together with its implied stack effects.
-/

set_option maxHeartbeats 2000000

mutual

/-- AST from `src/ast.rs`.  `Number` holds an `f64` in the source; the code
generator copies the payload verbatim into `LoadFloat`, so it is inert. -/
inductive Expr where
  | Nil
  | Dots
  | Boolean (b : Bool)
  | Number (v : Float)
  | String (s : String)
  | Function (params : List Lhs) (body : Block)
  | Table (elems : List Expr)
  | Add (l r : Expr)
  | Sub (l r : Expr)
  | Mul (l r : Expr)
  | Div (l r : Expr)
  | Idiv (l r : Expr)
  | Mod (l r : Expr)
  | Pow (l r : Expr)
  | Concat (l r : Expr)
  | Eq (l r : Expr)
  | Ne (l r : Expr)
  | Lt (l r : Expr)
  | Gt (l r : Expr)
  | Le (l r : Expr)
  | Ge (l r : Expr)
  | Not (v : Expr)
  | Call (target : Expr) (args : List Expr)
  | Pair (l r : Expr)
  | Id (name : String)
  | Index (target : Expr) (index : Expr)

/-- Statements from `src/ast.rs`. -/
inductive Stmt where
  | Do (stmts : List Stmt)
  | Set (lhs : List Lhs) (exprs : List Expr)
  | While (cond : Expr) (body : Block)
  | Repeat (body : Block) (cond : Expr)
  | If (arms : List (Expr × Block)) (els : Option Block)
  | Fornum (var : Lhs) (from_ : Expr) (to_ : Expr) (step : Option Expr) (body : Block)
  | Forin (vars : List Lhs) (iters : List Expr) (body : Block)
  | Local (lhs : List Lhs) (exprs : List Expr)
  | Localrec (lhs : Lhs) (expr : Expr)
  | Goto (l : String)
  | Label (l : String)
  | Return (vals : List Expr)
  | Break
  | Call (target : Expr) (args : List Expr)

/-- Rust `enum Block` (one constructor holding `Vec<Stmt>`) from `src/ast.rs` (the single
constructor is named `mk` here so that the type name stays usable inside the
`Block` namespace). -/
inductive Block where
  | mk (stmts : List Stmt)

/-- Assignable targets from `src/ast.rs`. -/
inductive Lhs where
  | Id (name : String)
  | Index (target : Expr) (index : Expr)

end

/-- Port of `Lhs::id` from `src/ast.rs`. -/
def Lhs.id : Lhs → Option String
  | Lhs.Id s => some s
  | _ => none

/-- Port of `Block::statements` from `src/ast.rs`. -/
def Block.statements : Block → List Stmt
  | Block.mk v => v

/-- Opcode vocabulary consumed by the generator (spec section 6; the opcode
type itself lives in the external `hexagon` VM crate).  `GetLocal` /
`SetLocal`, `GetUpvalue` / `SetUpvalue`, `GetThisField` / `SetThisField` and
`GetArgument` stand for the load/store forms emitted by the modelled
`VarLocation` and argument-binding helpers. -/
inductive OpCode where
  | LoadNull
  | LoadBool (b : Bool)
  | LoadFloat (v : Float)
  | LoadString (s : String)
  | LoadFunction (id : Nat)
  | Dup
  | Pop
  | Rotate2
  | RotateReverse (n : Nat)
  | Add
  | Sub
  | Mul
  | Div
  | IntDiv
  | Mod
  | Pow
  | TestEq
  | TestNe
  | TestLt
  | TestGt
  | TestLe
  | TestGe
  | NotOp
  | Concat
  | CreateTable
  | TableSet
  | CreatePair
  | IndexGet
  | IndexSet
  | Call (argc : Nat)
  | Return
  | Branch (target : Nat)
  | ConditionalBranch (onTrue onFalse : Nat)
  | GetLocal (slot : Nat)
  | SetLocal (slot : Nat)
  | GetUpvalue (slot : Nat)
  | SetUpvalue (slot : Nat)
  | GetThisField (name : String)
  | SetThisField (name : String)
  | GetArgument (i : Nat)

/-- Port of `CodegenError` from `src/ast_codegen.rs`: a descriptive error string. -/
structure CodegenError where
  desc : String

/-- Modelled from the spec: a basic block is an ordered opcode sequence
(`BasicBlockBuilder` in the missing `codegen.rs`). -/
structure BasicBlock where
  opcodes : List OpCode

/-- Port of `LoopControlInfo` (break target block id, continue target block id);
its fields are used directly in `src/ast_codegen.rs`. -/
structure LoopControlInfo where
  break_point : Nat
  continue_point : Nat

/-- Modelled from the spec: one lexical scope, mapping names to local slots. -/
structure Scope where
  vars : List (String × Nat)

/-- Modelled from the spec: `FunctionBuilder` of the missing `codegen.rs`.
It owns the basic block list, the current-position cursor, the lexical scope
stack and the loop-control stack (spec section 5); `module_functions` stands
for the module builder's function table, threaded through nested function
builds. -/
structure FunctionBuilder where
  basic_blocks : List BasicBlock
  current_basic_block : Nat
  scopes : List Scope
  next_local : Nat
  lci_stack : List LoopControlInfo
  upvalues : List (String × Nat)
  module_functions : List (List BasicBlock)

/-- Modelled from the spec (section 9): `enum Location` with local slot,
upvalue slot, or dynamic-environment field. -/
inductive VarLocation where
  | Local (slot : Nat)
  | Upvalue (slot : Nat)
  | This (name : String)

/-- Replace the element at index `i` (no-op when out of range), as mutation of
`basic_blocks[i]` does in Rust. -/
def listModify (f : α → α) : Nat → List α → List α
  | _, [] => []
  | 0, x :: xs => f x :: xs
  | n + 1, x :: xs => x :: listModify f n xs

/-- Append `op` to the opcode list of basic block `i`
(`fb.basic_blocks[i].opcodes.push(op)`). -/
def FunctionBuilder.pushOpAt (fb : FunctionBuilder) (i : Nat) (op : OpCode) : FunctionBuilder :=
  { fb with basic_blocks :=
      listModify (fun b => ⟨b.opcodes ++ [op]⟩) i fb.basic_blocks }

/-- Append `op` to the current basic block
(`fb.get_current_bb().opcodes.push(op)`). -/
def FunctionBuilder.pushOp (fb : FunctionBuilder) (op : OpCode) : FunctionBuilder :=
  fb.pushOpAt fb.current_basic_block op

/-- Modelled from the spec: `move_forward` starts a new (empty) basic block
and moves the cursor to it. -/
def FunctionBuilder.move_forward (fb : FunctionBuilder) : FunctionBuilder :=
  { fb with basic_blocks := fb.basic_blocks ++ [⟨[]⟩],
            current_basic_block := fb.current_basic_block + 1 }

/-- Modelled from the spec: enter a lexical scope (`scoped`, push half). -/
def FunctionBuilder.pushScope (fb : FunctionBuilder) : FunctionBuilder :=
  { fb with scopes := ⟨[]⟩ :: fb.scopes }

/-- Modelled from the spec: leave a lexical scope (`scoped`, pop half;
popped on every exit path, including errors — spec section 5). -/
def FunctionBuilder.popScope (fb : FunctionBuilder) : FunctionBuilder :=
  { fb with scopes := fb.scopes.tail }

/-- Modelled from the spec: enter a loop (`with_lci`, push half). -/
def FunctionBuilder.pushLci (fb : FunctionBuilder) (lci : LoopControlInfo) : FunctionBuilder :=
  { fb with lci_stack := lci :: fb.lci_stack }

/-- Modelled from the spec: leave a loop (`with_lci`, pop half; popped on
every exit path, including errors — spec section 5). -/
def FunctionBuilder.popLci (fb : FunctionBuilder) : FunctionBuilder :=
  { fb with lci_stack := fb.lci_stack.tail }

/-- Modelled from the spec: look a name up in one scope. -/
def Scope.lookup (s : Scope) (k : String) : Option Nat :=
  (s.vars.find? (fun p => p.1 == k)).map (fun p => p.2)

/-- Modelled from the spec: look a name up along the lexical scope stack,
innermost first. -/
def scopesLookup (k : String) : List Scope → Option Nat
  | [] => none
  | s :: rest =>
    match s.lookup k with
    | some slot => some slot
    | none => scopesLookup k rest

/-- Modelled from the spec: `ModuleBuilder::lookup_var` — locals first, then
upvalues captured from enclosing functions, otherwise unresolved. -/
def FunctionBuilder.lookup_var (fb : FunctionBuilder) (k : String) : Option VarLocation :=
  match scopesLookup k fb.scopes with
  | some slot => some (VarLocation.Local slot)
  | none =>
    match (fb.upvalues.find? (fun p => p.1 == k)).map (fun p => p.2) with
    | some slot => some (VarLocation.Upvalue slot)
    | none => none

/-- Modelled from the spec: `get_var_location` resolves an existing binding,
falling back to the dynamic "this" environment when unresolved
(spec section 4.2, Set). -/
def FunctionBuilder.get_var_location (fb : FunctionBuilder) (k : String) : VarLocation :=
  match fb.lookup_var k with
  | some v => v
  | none => VarLocation.This k

/-- Modelled from the spec: `create_local` makes a fresh binding in the
innermost scope (local declarations always shadow) and returns its location. -/
def FunctionBuilder.create_local (fb : FunctionBuilder) (k : String) :
    VarLocation × FunctionBuilder :=
  (VarLocation.Local fb.next_local,
   { fb with
      scopes :=
        match fb.scopes with
        | [] => [⟨[(k, fb.next_local)]⟩]
        | s :: rest => ⟨(k, fb.next_local) :: s.vars⟩ :: rest,
      next_local := fb.next_local + 1 })

/-- Modelled from the spec: a variable location emits its load opcode. -/
def VarLocation.build_get (v : VarLocation) (fb : FunctionBuilder) : FunctionBuilder :=
  match v with
  | VarLocation.Local slot => fb.pushOp (OpCode.GetLocal slot)
  | VarLocation.Upvalue slot => fb.pushOp (OpCode.GetUpvalue slot)
  | VarLocation.This name => fb.pushOp (OpCode.GetThisField name)

/-- Modelled from the spec: a variable location emits its store opcode,
consuming the value on top of the stack. -/
def VarLocation.build_set (v : VarLocation) (fb : FunctionBuilder) : FunctionBuilder :=
  match v with
  | VarLocation.Local slot => fb.pushOp (OpCode.SetLocal slot)
  | VarLocation.Upvalue slot => fb.pushOp (OpCode.SetUpvalue slot)
  | VarLocation.This name => fb.pushOp (OpCode.SetThisField name)

/-- Modelled from the spec: the `write_*` helpers of the function builder
each emit a single opcode. -/
def FunctionBuilder.write_table_create (fb : FunctionBuilder) : FunctionBuilder :=
  fb.pushOp OpCode.CreateTable

def FunctionBuilder.write_table_set (fb : FunctionBuilder) : FunctionBuilder :=
  fb.pushOp OpCode.TableSet

def FunctionBuilder.write_concat (fb : FunctionBuilder) : FunctionBuilder :=
  fb.pushOp OpCode.Concat

def FunctionBuilder.write_pair_create (fb : FunctionBuilder) : FunctionBuilder :=
  fb.pushOp OpCode.CreatePair

def FunctionBuilder.write_index_get (fb : FunctionBuilder) : FunctionBuilder :=
  fb.pushOp OpCode.IndexGet

def FunctionBuilder.write_index_set (fb : FunctionBuilder) : FunctionBuilder :=
  fb.pushOp OpCode.IndexSet

def FunctionBuilder.write_function_load (fb : FunctionBuilder) (id : Nat) : FunctionBuilder :=
  fb.pushOp (OpCode.LoadFunction id)

/-- Modelled from the spec: a fresh function builder allocated from the
module (`new_function`); it starts with one empty basic block and may resolve
the enclosing function's visible names as upvalues. -/
def FunctionBuilder.new_function (fb : FunctionBuilder) : FunctionBuilder :=
  { basic_blocks := [⟨[]⟩],
    current_basic_block := 0,
    scopes := [⟨[]⟩],
    next_local := 0,
    lci_stack := [],
    upvalues :=
      ((fb.scopes.map (fun s => s.vars)).flatten ++ fb.upvalues),
    module_functions := fb.module_functions }

/-- Modelled from the spec: `build_args_load` registers the parameter names
as argument-binding locals in declaration order and emits the loads. -/
def build_args_load (names : List String) (fb : FunctionBuilder) : FunctionBuilder :=
  go 0 names fb
where
  go (i : Nat) : List String → FunctionBuilder → FunctionBuilder
    | [], fb => fb
    | n :: rest, fb =>
      let fb := fb.pushOp (OpCode.GetArgument i)
      let (loc, fb) := fb.create_local n
      go (i + 1) rest (loc.build_set fb)

/-- Collect the parameter names of a function literal, failing on a
non-identifier parameter (the `arg_names` loop of the `Expr::Function` arm). -/
def collect_arg_names : List Lhs → Option (List String)
  | [] => some []
  | lhs :: rest =>
    match lhs.id with
    | some id =>
      match collect_arg_names rest with
      | some names => some (id :: names)
      | none => none
    | none => none

/-- Result of a lowering step.  In Rust the builder is mutated in place and an
error leaves it observable to the caller, so the error carries the builder
state at the point the error was raised. -/
abbrev GenResult := Except (CodegenError × FunctionBuilder) FunctionBuilder

/-- Port of `Lhs::build_new_local` from `src/ast_codegen.rs`. -/
def Lhs.build_new_local (lhs : Lhs) (fb : FunctionBuilder) : GenResult :=
  match lhs with
  | Lhs.Id id =>
    let (loc, fb) := fb.create_local id
    Except.ok (loc.build_set fb)
  | _ => Except.error (⟨"build_new_local: Unexpected lvalue"⟩, fb)

/-! ### Used-variable analyzer (`GetUsedVars` impls from `src/ast.rs`) -/

mutual

/-- Impl `GetUsedVars for Expr`. -/
def Expr.get_used_vars : Expr → List String
  | Expr.Nil | Expr.Dots | Expr.Boolean _ | Expr.Number _ | Expr.String _ => []
  | Expr.Function l r => lhss_get_used_vars l ++ Block.get_used_vars r
  | Expr.Table t => exprs_get_used_vars t
  | Expr.Add l r => Expr.get_used_vars l ++ Expr.get_used_vars r
  | Expr.Sub l r => Expr.get_used_vars l ++ Expr.get_used_vars r
  | Expr.Mul l r => Expr.get_used_vars l ++ Expr.get_used_vars r
  | Expr.Div l r => Expr.get_used_vars l ++ Expr.get_used_vars r
  | Expr.Idiv l r => Expr.get_used_vars l ++ Expr.get_used_vars r
  | Expr.Mod l r => Expr.get_used_vars l ++ Expr.get_used_vars r
  | Expr.Pow l r => Expr.get_used_vars l ++ Expr.get_used_vars r
  | Expr.Concat l r => Expr.get_used_vars l ++ Expr.get_used_vars r
  | Expr.Eq l r => Expr.get_used_vars l ++ Expr.get_used_vars r
  | Expr.Ne l r => Expr.get_used_vars l ++ Expr.get_used_vars r
  | Expr.Lt l r => Expr.get_used_vars l ++ Expr.get_used_vars r
  | Expr.Gt l r => Expr.get_used_vars l ++ Expr.get_used_vars r
  | Expr.Le l r => Expr.get_used_vars l ++ Expr.get_used_vars r
  | Expr.Ge l r => Expr.get_used_vars l ++ Expr.get_used_vars r
  | Expr.Not v => Expr.get_used_vars v
  | Expr.Call l r => Expr.get_used_vars l ++ exprs_get_used_vars r
  | Expr.Pair l r => Expr.get_used_vars l ++ Expr.get_used_vars r
  | Expr.Id v => [v]
  | Expr.Index l r => Expr.get_used_vars l ++ Expr.get_used_vars r

/-- Impl `GetUsedVars for Vec<Expr>`. -/
def exprs_get_used_vars : List Expr → List String
  | [] => []
  | e :: rest => Expr.get_used_vars e ++ exprs_get_used_vars rest

/-- Impl `GetUsedVars for Lhs`. -/
def Lhs.get_used_vars : Lhs → List String
  | Lhs.Id v => [v]
  | Lhs.Index left right => Expr.get_used_vars left ++ Expr.get_used_vars right

/-- Impl `GetUsedVars for Vec<Lhs>`. -/
def lhss_get_used_vars : List Lhs → List String
  | [] => []
  | l :: rest => Lhs.get_used_vars l ++ lhss_get_used_vars rest

/-- Impl `GetUsedVars for Stmt`. -/
def Stmt.get_used_vars : Stmt → List String
  | Stmt.Do v => stmts_get_used_vars v
  | Stmt.Set l r => lhss_get_used_vars l ++ exprs_get_used_vars r
  | Stmt.While l r => Expr.get_used_vars l ++ Block.get_used_vars r
  | Stmt.Repeat l r => Block.get_used_vars l ++ Expr.get_used_vars r
  | Stmt.If l r => clauses_get_used_vars l ++ opt_block_get_used_vars r
  | Stmt.Fornum a b c d e =>
    (Lhs.get_used_vars a ++ Expr.get_used_vars b) ++
      ((Expr.get_used_vars c ++ opt_expr_get_used_vars d) ++ Block.get_used_vars e)
  | Stmt.Forin a b c =>
    (lhss_get_used_vars a ++ exprs_get_used_vars b) ++ Block.get_used_vars c
  | Stmt.Local l r => lhss_get_used_vars l ++ exprs_get_used_vars r
  | Stmt.Localrec l r => Lhs.get_used_vars l ++ Expr.get_used_vars r
  | Stmt.Goto _ | Stmt.Label _ | Stmt.Break => []
  | Stmt.Return v => exprs_get_used_vars v
  | Stmt.Call l r => Expr.get_used_vars l ++ exprs_get_used_vars r

/-- Impl `GetUsedVars for Vec<Stmt>`. -/
def stmts_get_used_vars : List Stmt → List String
  | [] => []
  | s :: rest => Stmt.get_used_vars s ++ stmts_get_used_vars rest

/-- Impl `GetUsedVars for Block`. -/
def Block.get_used_vars : Block → List String
  | Block.mk v => stmts_get_used_vars v

/-- Impl `GetUsedVars for Vec<(L, R)>` at `(Expr, Block)` (if/elseif arms). -/
def clauses_get_used_vars : List (Expr × Block) → List String
  | [] => []
  | (l, r) :: rest =>
    (Expr.get_used_vars l ++ Block.get_used_vars r) ++ clauses_get_used_vars rest

/-- Impl `GetUsedVars for Option<T>` at `Block`. -/
def opt_block_get_used_vars : Option Block → List String
  | some b => Block.get_used_vars b
  | none => []

/-- Impl `GetUsedVars for Option<T>` at `Expr`. -/
def opt_expr_get_used_vars : Option Expr → List String
  | some e => Expr.get_used_vars e
  | none => []

end

/-! ### The code generator (`src/ast_codegen.rs`) -/

theorem Expr.one_le_sizeOf (e : Expr) : 1 ≤ sizeOf e := by
  cases e <;> simp_arith

theorem one_le_sizeOf_list [SizeOf α] (l : List α) : 1 ≤ sizeOf l := by
  cases l <;> simp_arith

mutual

/-- Port of `Lhs::build_set` from `src/ast_codegen.rs`: commit the value on top of
the stack to an assignment target. -/
def Lhs.build_set : Lhs → FunctionBuilder → GenResult
  | Lhs.Id id, fb => Except.ok ((fb.get_var_location id).build_set fb)
  | Lhs.Index target index, fb =>
    match Expr.restricted_generate_code index fb with
    | Except.error e => Except.error e
    | Except.ok fb =>
      match Expr.restricted_generate_code target fb with
      | Except.error e => Except.error e
      | Except.ok fb => Except.ok fb.write_index_set
termination_by l => sizeOf l

/-- Shared body of every binary-operator arm of
`Expr::restricted_generate_code`: left operand, right operand, `Rotate2`,
operator opcode — the source spells this sequence out once per operator. -/
def genBinary (l r : Expr) (op : OpCode) (fb : FunctionBuilder) : GenResult :=
  match Expr.restricted_generate_code l fb with
  | Except.error e => Except.error e
  | Except.ok fb =>
    match Expr.restricted_generate_code r fb with
    | Except.error e => Except.error e
    | Except.ok fb => Except.ok ((fb.pushOp OpCode.Rotate2).pushOp op)
termination_by sizeOf l + sizeOf r
decreasing_by
  all_goals simp_wf
  all_goals (have hl := Expr.one_le_sizeOf l; have hr := Expr.one_le_sizeOf r; omega)

/-- The `Expr::Call` arm of `Expr::restricted_generate_code` (also reached
from `Stmt::Call`, which wraps its parts in an `Expr::Call`): arguments left
to right, `RotateReverse(argc)`, `LoadNull` receiver placeholder, callee,
`Call(argc)`. -/
def genCallExpr (target : Expr) (args : List Expr) (fb : FunctionBuilder) : GenResult :=
  match genExprList args fb with
  | Except.error e => Except.error e
  | Except.ok fb =>
    let fb := fb.pushOp (OpCode.RotateReverse args.length)
    let fb := fb.pushOp OpCode.LoadNull
    match Expr.restricted_generate_code target fb with
    | Except.error e => Except.error e
    | Except.ok fb => Except.ok (fb.pushOp (OpCode.Call args.length))
termination_by sizeOf target + sizeOf args
decreasing_by
  all_goals simp_wf
  all_goals (have ht := Expr.one_le_sizeOf target; have ha := one_le_sizeOf_list args; omega)

/-- The `for arg in args` loop of the `Expr::Call` arm. -/
def genExprList : List Expr → FunctionBuilder → GenResult
  | [], fb => Except.ok fb
  | e :: rest, fb =>
    match Expr.restricted_generate_code e fb with
    | Except.error err => Except.error err
    | Except.ok fb => genExprList rest fb
termination_by es => sizeOf es

/-- The per-element loop of the `Expr::Table` arm: `Dup`, element value,
`Rotate2`, `write_table_set`. -/
def genTableElems : List Expr → FunctionBuilder → GenResult
  | [], fb => Except.ok fb
  | v :: rest, fb =>
    match Expr.restricted_generate_code v (fb.pushOp OpCode.Dup) with
    | Except.error err => Except.error err
    | Except.ok fb => genTableElems rest ((fb.pushOp OpCode.Rotate2).write_table_set)
termination_by es => sizeOf es

/-- Port of `Expr::restricted_generate_code` from `src/ast_codegen.rs`. -/
def Expr.restricted_generate_code : Expr → FunctionBuilder → GenResult
  | Expr.Nil, fb => Except.ok (fb.pushOp OpCode.LoadNull)
  | Expr.Boolean v, fb => Except.ok (fb.pushOp (OpCode.LoadBool v))
  | Expr.Number v, fb => Except.ok (fb.pushOp (OpCode.LoadFloat v))
  | Expr.String s, fb => Except.ok (fb.pushOp (OpCode.LoadString s))
  | Expr.Function vlhs blk, fb =>
    -- collect arg names, failing on a non-identifier parameter
    match collect_arg_names vlhs with
    | none => Except.error (⟨"Expecting id in function signature"⟩, fb)
    | some arg_names =>
      -- new_builder = module.new_function(); new_builder.build_args_load(...)
      let nb := build_args_load arg_names fb.new_function
      -- fn_id = new_builder.build(blk)
      match Block.unrestricted_generate_code blk nb with
      | Except.error (e, _) => Except.error (e, fb)
      | Except.ok nb =>
        let fn_id := nb.module_functions.length
        let fb := { fb with module_functions := nb.module_functions ++ [nb.basic_blocks] }
        Except.ok (fb.write_function_load fn_id)
  | Expr.Table elems, fb => genTableElems elems fb.write_table_create
  | Expr.Add l r, fb => genBinary l r OpCode.Add fb
  | Expr.Sub l r, fb => genBinary l r OpCode.Sub fb
  | Expr.Mul l r, fb => genBinary l r OpCode.Mul fb
  | Expr.Div l r, fb => genBinary l r OpCode.Div fb
  | Expr.Idiv l r, fb => genBinary l r OpCode.IntDiv fb
  | Expr.Mod l r, fb => genBinary l r OpCode.Mod fb
  | Expr.Pow l r, fb => genBinary l r OpCode.Pow fb
  | Expr.Concat l r, fb => genBinary l r OpCode.Concat fb
  | Expr.Eq l r, fb => genBinary l r OpCode.TestEq fb
  | Expr.Ne l r, fb => genBinary l r OpCode.TestNe fb
  | Expr.Lt l r, fb => genBinary l r OpCode.TestLt fb
  | Expr.Gt l r, fb => genBinary l r OpCode.TestGt fb
  | Expr.Le l r, fb => genBinary l r OpCode.TestLe fb
  | Expr.Ge l r, fb => genBinary l r OpCode.TestGe fb
  | Expr.Not v, fb =>
    match Expr.restricted_generate_code v fb with
    | Except.error e => Except.error e
    | Except.ok fb => Except.ok (fb.pushOp OpCode.NotOp)
  | Expr.Call target args, fb => genCallExpr target args fb
  | Expr.Pair l r, fb => genBinary l r OpCode.CreatePair fb
  | Expr.Id k, fb =>
    let v := match fb.lookup_var k with
      | some v => v
      | none => VarLocation.This k
    Except.ok (v.build_get fb)
  | Expr.Index target index, fb =>
    match Expr.restricted_generate_code index fb with
    | Except.error e => Except.error e
    | Except.ok fb =>
      match Expr.restricted_generate_code target fb with
      | Except.error e => Except.error e
      | Except.ok fb => Except.ok fb.write_index_get
  | Expr.Dots, fb => Except.error (⟨"Dots: Not implemented"⟩, fb)
termination_by e => sizeOf e

/-- The `for i in 0..lhs.len()` loop of the `Stmt::Set` arm (reached only
with equal lengths). -/
def genSetPairs : List Lhs → List Expr → FunctionBuilder → GenResult
  | l :: ls, e :: es, fb =>
    match Expr.restricted_generate_code e fb with
    | Except.error err => Except.error err
    | Except.ok fb =>
      match Lhs.build_set l fb with
      | Except.error err => Except.error err
      | Except.ok fb => genSetPairs ls es fb
  | _, _, fb => Except.ok fb
termination_by ls es => sizeOf ls + sizeOf es

/-- The `for i in 0..lhs.len()` loop of the `Stmt::Local` arm (reached only
with equal lengths). -/
def genLocalPairs : List Lhs → List Expr → FunctionBuilder → GenResult
  | l :: ls, e :: es, fb =>
    match Expr.restricted_generate_code e fb with
    | Except.error err => Except.error err
    | Except.ok fb =>
      match Lhs.build_new_local l fb with
      | Except.error err => Except.error err
      | Except.ok fb => genLocalPairs ls es fb
  | _, _, fb => Except.ok fb
termination_by ls es => sizeOf ls + sizeOf es

/-- Port of `Stmt::unrestricted_generate_code` from `src/ast_codegen.rs`. -/
def Stmt.unrestricted_generate_code : Stmt → FunctionBuilder → GenResult
  | Stmt.Do stmts, fb => genStmtList stmts fb
  | Stmt.Set lhs exprs, fb =>
    if lhs.length ≠ exprs.length then
      Except.error (⟨"Set: lhs & exprs length mismatch"⟩, fb)
    else
      genSetPairs lhs exprs fb
  | Stmt.While expr blk, fb =>
    -- fb.scoped(|fb| { ... }) : scope pushed here, popped on every exit path
    let fb := fb.pushScope
    let expr_check_bb_id := fb.current_basic_block + 1
    let fb := fb.pushOp (OpCode.Branch expr_check_bb_id)
    let fb := fb.move_forward
    match Expr.restricted_generate_code expr fb with
    | Except.error (e, fbE) => Except.error (e, fbE.popScope)
    | Except.ok fb =>
      let break_point_bb_id := fb.current_basic_block + 1
      let fb := fb.move_forward
      let body_begin_bb_id := fb.current_basic_block + 1
      let fb := fb.move_forward
      -- fb.with_lci(LoopControlInfo { break_point, continue_point }, |fb| ...)
      let fb := fb.pushLci ⟨break_point_bb_id, expr_check_bb_id⟩
      match Block.unrestricted_generate_code blk fb with
      | Except.error (e, fbE) => Except.error (e, fbE.popLci.popScope)
      | Except.ok fb =>
        let fb := fb.popLci
        let fb := fb.pushOp (OpCode.Branch expr_check_bb_id)
        let end_bb_id := fb.current_basic_block + 1
        let fb := fb.move_forward
        let fb := fb.pushOpAt break_point_bb_id (OpCode.Branch end_bb_id)
        let fb := fb.pushOpAt expr_check_bb_id
          (OpCode.ConditionalBranch body_begin_bb_id end_bb_id)
        Except.ok fb.popScope
  | Stmt.Local lhs exprs, fb =>
    if lhs.length ≠ exprs.length then
      Except.error (⟨"Local: lhs & exprs length mismatch"⟩, fb)
    else
      genLocalPairs lhs exprs fb
  | Stmt.Call target args, fb =>
    -- source: Expr::Call(Box::new(target.clone()), args.clone())
    --           .restricted_generate_code(fb)?  — then discard the result
    match genCallExpr target args fb with
    | Except.error e => Except.error e
    | Except.ok fb => Except.ok (fb.pushOp OpCode.Pop)
  | Stmt.Return [], fb =>
    -- v.len() == 0
    Except.ok (((fb.pushOp OpCode.LoadNull).pushOp OpCode.Return).move_forward)
  | Stmt.Return [v], fb =>
    -- v.len() == 1
    match Expr.restricted_generate_code v fb with
    | Except.error e => Except.error e
    | Except.ok fb => Except.ok ((fb.pushOp OpCode.Return).move_forward)
  | Stmt.Return (_ :: _ :: _), fb =>
    Except.error (⟨"Multiple return values is not supported for now"⟩, fb)
  | Stmt.Repeat _ _, fb => Except.error (⟨"Not implemented"⟩, fb)
  | Stmt.If _ _, fb => Except.error (⟨"Not implemented"⟩, fb)
  | Stmt.Fornum _ _ _ _ _, fb => Except.error (⟨"Not implemented"⟩, fb)
  | Stmt.Forin _ _ _, fb => Except.error (⟨"Not implemented"⟩, fb)
  | Stmt.Localrec _ _, fb => Except.error (⟨"Not implemented"⟩, fb)
  | Stmt.Goto _, fb => Except.error (⟨"Not implemented"⟩, fb)
  | Stmt.Label _, fb => Except.error (⟨"Not implemented"⟩, fb)
  | Stmt.Break, fb => Except.error (⟨"Not implemented"⟩, fb)
termination_by s => sizeOf s

/-- The statement loop shared by `Block::unrestricted_generate_code` and the
`Stmt::Do` arm. -/
def genStmtList : List Stmt → FunctionBuilder → GenResult
  | [], fb => Except.ok fb
  | s :: rest, fb =>
    match Stmt.unrestricted_generate_code s fb with
    | Except.error e => Except.error e
    | Except.ok fb => genStmtList rest fb
termination_by ss => sizeOf ss

/-- Port of `Block::unrestricted_generate_code` from `src/ast_codegen.rs`. -/
def Block.unrestricted_generate_code : Block → FunctionBuilder → GenResult
  | Block.mk stmts, fb => genStmtList stmts fb
termination_by b => sizeOf b

end

/-! ### Observation layer: block contents, well-formedness, stack effects -/

/-- The opcode list of basic block `i` (empty when out of range). -/
def FunctionBuilder.blockOps (fb : FunctionBuilder) (i : Nat) : List OpCode :=
  ((fb.basic_blocks[i]?).getD ⟨[]⟩).opcodes

/-- Builder well-formedness: the cursor sits on the last basic block.  A fresh
function builder satisfies this and every builder operation preserves it. -/
def FunctionBuilder.wf (fb : FunctionBuilder) : Prop :=
  fb.current_basic_block + 1 = fb.basic_blocks.length

/-- Net effect of one opcode on the height of the evaluation stack.
Modelled from the spec (sections 4.2 and 6): loads and `Dup` push one value;
`Pop` discards one; stack reorders are height-neutral; binary operators,
`Concat`, pair creation and index loads consume two and push one; `Not`
consumes and pushes one; `TableSet` consumes a duplicated table reference and
an element; `IndexSet` consumes key, base and the stored value;
`Call(argc)` consumes argc arguments, the receiver placeholder and the callee
and pushes the single result; `Return` consumes the returned value;
a conditional branch consumes the tested condition. -/
def OpCode.stackDelta : OpCode → Int
  | OpCode.LoadNull => 1
  | OpCode.LoadBool _ => 1
  | OpCode.LoadFloat _ => 1
  | OpCode.LoadString _ => 1
  | OpCode.LoadFunction _ => 1
  | OpCode.Dup => 1
  | OpCode.Pop => -1
  | OpCode.Rotate2 => 0
  | OpCode.RotateReverse _ => 0
  | OpCode.Add => -1
  | OpCode.Sub => -1
  | OpCode.Mul => -1
  | OpCode.Div => -1
  | OpCode.IntDiv => -1
  | OpCode.Mod => -1
  | OpCode.Pow => -1
  | OpCode.TestEq => -1
  | OpCode.TestNe => -1
  | OpCode.TestLt => -1
  | OpCode.TestGt => -1
  | OpCode.TestLe => -1
  | OpCode.TestGe => -1
  | OpCode.NotOp => 0
  | OpCode.Concat => -1
  | OpCode.CreateTable => 1
  | OpCode.TableSet => -2
  | OpCode.CreatePair => -1
  | OpCode.IndexGet => -1
  | OpCode.IndexSet => -3
  | OpCode.Call argc => -(argc + 1 : Int)
  | OpCode.Return => -1
  | OpCode.Branch _ => 0
  | OpCode.ConditionalBranch _ _ => -1
  | OpCode.GetLocal _ => 1
  | OpCode.SetLocal _ => -1
  | OpCode.GetUpvalue _ => 1
  | OpCode.SetUpvalue _ => -1
  | OpCode.GetThisField _ => 1
  | OpCode.SetThisField _ => -1
  | OpCode.GetArgument _ => 1

/-- Net stack effect of an opcode sequence. -/
def opsDelta (l : List OpCode) : Int :=
  (l.map OpCode.stackDelta).sum

/-- What one restricted-mode (straight-line) generation step does to the
builder: the cursor and the block structure are untouched except that the
current basic block is extended by an opcode run of net stack effect `d`. -/
structure SLStep (fb fbF : FunctionBuilder) (d : Int) : Prop where
  curEq : fbF.current_basic_block = fb.current_basic_block
  lenEq : fbF.basic_blocks.length = fb.basic_blocks.length
  other : ∀ i, i ≠ fb.current_basic_block → fbF.basic_blocks[i]? = fb.basic_blocks[i]?
  delta : fb.current_basic_block < fb.basic_blocks.length →
    ∃ ops, fbF.blockOps fb.current_basic_block = fb.blockOps fb.current_basic_block ++ ops
      ∧ opsDelta ops = d

/-- What one unrestricted-mode (statement) generation step preserves: the
cursor only moves forward, well-formedness is kept, and basic blocks strictly
before the entry cursor are never written again. -/
structure StmtPres (fb fbF : FunctionBuilder) : Prop where
  mono : fb.current_basic_block ≤ fbF.current_basic_block
  wf : fbF.wf
  below : ∀ i, i < fb.current_basic_block → fbF.basic_blocks[i]? = fb.basic_blocks[i]?

/-- The binary-operator expression forms together with their operand pair
and their operator opcode (arithmetic, comparison, concatenation, pair
construction — spec section 4.2). -/
def binOpView : Expr → Option (Expr × Expr × OpCode)
  | Expr.Add l r => some (l, r, OpCode.Add)
  | Expr.Sub l r => some (l, r, OpCode.Sub)
  | Expr.Mul l r => some (l, r, OpCode.Mul)
  | Expr.Div l r => some (l, r, OpCode.Div)
  | Expr.Idiv l r => some (l, r, OpCode.IntDiv)
  | Expr.Mod l r => some (l, r, OpCode.Mod)
  | Expr.Pow l r => some (l, r, OpCode.Pow)
  | Expr.Concat l r => some (l, r, OpCode.Concat)
  | Expr.Eq l r => some (l, r, OpCode.TestEq)
  | Expr.Ne l r => some (l, r, OpCode.TestNe)
  | Expr.Lt l r => some (l, r, OpCode.TestLt)
  | Expr.Gt l r => some (l, r, OpCode.TestGt)
  | Expr.Le l r => some (l, r, OpCode.TestLe)
  | Expr.Ge l r => some (l, r, OpCode.TestGe)
  | Expr.Pair l r => some (l, r, OpCode.CreatePair)
  | _ => none

/-- A fresh function builder: one empty basic block, one empty scope, no
loop contexts, empty module function table. -/
def initFB : FunctionBuilder :=
  { basic_blocks := [⟨[]⟩], current_basic_block := 0, scopes := [⟨[]⟩],
    next_local := 0, lci_stack := [], upvalues := [], module_functions := [] }

/-- The error description of a lowering result, when it is an error. -/
def resultErrDesc : GenResult → Option String
  | Except.ok _ => none
  | Except.error (e, _) => some e.desc

/-! ### Primitive lemmas about the builder operations -/

theorem listModify_length (f : α → α) (n : Nat) (l : List α) :
    (listModify f n l).length = l.length := by
  induction l generalizing n with
  | nil => cases n <;> rfl
  | cons x xs ih => cases n with
    | zero => rfl
    | succ m => simpa [listModify] using ih m

theorem listModify_get_ne (f : α → α) {i n : Nat} (l : List α) (h : i ≠ n) :
    (listModify f n l)[i]? = l[i]? := by
  induction l generalizing n i with
  | nil => cases n <;> rfl
  | cons x xs ih =>
    cases n with
    | zero =>
      cases i with
      | zero => exact absurd rfl h
      | succ j => simp [listModify]
    | succ m =>
      cases i with
      | zero => simp [listModify]
      | succ j => simpa [listModify] using ih (fun hc => h (by omega))

theorem listModify_get_self (f : α → α) (n : Nat) (l : List α) :
    (listModify f n l)[n]? = (l[n]?).map f := by
  induction l generalizing n with
  | nil => cases n <;> rfl
  | cons x xs ih => cases n with
    | zero => simp [listModify]
    | succ m => simpa [listModify] using ih m

theorem opsDelta_append (a b : List OpCode) :
    opsDelta (a ++ b) = opsDelta a + opsDelta b := by
  simp [opsDelta]

theorem opsDelta_nil : opsDelta [] = 0 := rfl

theorem opsDelta_single (op : OpCode) : opsDelta [op] = op.stackDelta := by
  simp [opsDelta]

namespace FunctionBuilder

theorem pushOpAt_current (fb : FunctionBuilder) (i : Nat) (op : OpCode) :
    (fb.pushOpAt i op).current_basic_block = fb.current_basic_block := rfl

theorem pushOpAt_length (fb : FunctionBuilder) (i : Nat) (op : OpCode) :
    (fb.pushOpAt i op).basic_blocks.length = fb.basic_blocks.length := by
  simp [pushOpAt, listModify_length]

theorem pushOpAt_get_ne (fb : FunctionBuilder) {i j : Nat} (op : OpCode) (h : j ≠ i) :
    (fb.pushOpAt i op).basic_blocks[j]? = fb.basic_blocks[j]? := by
  simp [pushOpAt, listModify_get_ne _ _ h]

theorem pushOpAt_blockOps_ne (fb : FunctionBuilder) {i j : Nat} (op : OpCode) (h : j ≠ i) :
    (fb.pushOpAt i op).blockOps j = fb.blockOps j := by
  simp [blockOps, pushOpAt_get_ne _ op h]

theorem pushOpAt_blockOps_self (fb : FunctionBuilder) {i : Nat} (op : OpCode)
    (h : i < fb.basic_blocks.length) :
    (fb.pushOpAt i op).blockOps i = fb.blockOps i ++ [op] := by
  simp [blockOps, pushOpAt, listModify_get_self, List.getElem?_eq_getElem h]

theorem pushOp_current (fb : FunctionBuilder) (op : OpCode) :
    (fb.pushOp op).current_basic_block = fb.current_basic_block := rfl

theorem pushOp_length (fb : FunctionBuilder) (op : OpCode) :
    (fb.pushOp op).basic_blocks.length = fb.basic_blocks.length :=
  fb.pushOpAt_length _ op

theorem pushOp_get_ne (fb : FunctionBuilder) {j : Nat} (op : OpCode)
    (h : j ≠ fb.current_basic_block) :
    (fb.pushOp op).basic_blocks[j]? = fb.basic_blocks[j]? :=
  fb.pushOpAt_get_ne op h

theorem pushOp_blockOps_self (fb : FunctionBuilder) (op : OpCode)
    (h : fb.current_basic_block < fb.basic_blocks.length) :
    (fb.pushOp op).blockOps fb.current_basic_block
      = fb.blockOps fb.current_basic_block ++ [op] :=
  fb.pushOpAt_blockOps_self op h

theorem pushOpAt_wf (fb : FunctionBuilder) (i : Nat) (op : OpCode) (h : fb.wf) :
    (fb.pushOpAt i op).wf := by
  simpa [wf, pushOpAt_length] using h

theorem pushOp_wf (fb : FunctionBuilder) (op : OpCode) (h : fb.wf) : (fb.pushOp op).wf :=
  fb.pushOpAt_wf _ op h

theorem move_forward_current (fb : FunctionBuilder) :
    fb.move_forward.current_basic_block = fb.current_basic_block + 1 := rfl

theorem move_forward_length (fb : FunctionBuilder) :
    fb.move_forward.basic_blocks.length = fb.basic_blocks.length + 1 := by
  simp [move_forward]

theorem move_forward_get_lt (fb : FunctionBuilder) {i : Nat}
    (h : i < fb.basic_blocks.length) :
    fb.move_forward.basic_blocks[i]? = fb.basic_blocks[i]? := by
  simp [move_forward, List.getElem?_append_left h]

theorem move_forward_blockOps_lt (fb : FunctionBuilder) {i : Nat}
    (h : i < fb.basic_blocks.length) :
    fb.move_forward.blockOps i = fb.blockOps i := by
  simp [blockOps, fb.move_forward_get_lt h]

theorem move_forward_blockOps_new (fb : FunctionBuilder) :
    fb.move_forward.blockOps fb.basic_blocks.length = [] := by
  simp [blockOps, move_forward]

theorem move_forward_wf (fb : FunctionBuilder) (h : fb.wf) : fb.move_forward.wf := by
  simp only [wf, move_forward_current, move_forward_length] at h ⊢
  omega

theorem wf_init : initFB.wf := by simp [wf, initFB]

theorem pushScope_blocks (fb : FunctionBuilder) :
    fb.pushScope.basic_blocks = fb.basic_blocks := rfl

theorem popScope_blocks (fb : FunctionBuilder) :
    fb.popScope.basic_blocks = fb.basic_blocks := rfl

theorem pushLci_blocks (fb : FunctionBuilder) (lci : LoopControlInfo) :
    (fb.pushLci lci).basic_blocks = fb.basic_blocks := rfl

theorem popLci_blocks (fb : FunctionBuilder) :
    fb.popLci.basic_blocks = fb.basic_blocks := rfl

theorem pushScope_current (fb : FunctionBuilder) :
    fb.pushScope.current_basic_block = fb.current_basic_block := rfl

theorem popScope_current (fb : FunctionBuilder) :
    fb.popScope.current_basic_block = fb.current_basic_block := rfl

theorem pushLci_current (fb : FunctionBuilder) (lci : LoopControlInfo) :
    (fb.pushLci lci).current_basic_block = fb.current_basic_block := rfl

theorem popLci_current (fb : FunctionBuilder) :
    fb.popLci.current_basic_block = fb.current_basic_block := rfl

end FunctionBuilder

/-! ### Step-invariant machinery -/

namespace SLStep

theorem refl (fb : FunctionBuilder) : SLStep fb fb 0 :=
  ⟨rfl, rfl, fun _ _ => rfl, fun _ => ⟨[], by simp, rfl⟩⟩

theorem trans {fb fb1 fb2 : FunctionBuilder} {d1 d2 : Int}
    (h1 : SLStep fb fb1 d1) (h2 : SLStep fb1 fb2 d2) : SLStep fb fb2 (d1 + d2) := by
  refine ⟨h2.curEq.trans h1.curEq, h2.lenEq.trans h1.lenEq, ?_, ?_⟩
  · intro i hi
    have hi1 : i ≠ fb1.current_basic_block := by rw [h1.curEq]; exact hi
    exact (h2.other i hi1).trans (h1.other i hi)
  · intro hlt
    obtain ⟨ops1, hops1, hd1⟩ := h1.delta hlt
    have hlt1 : fb1.current_basic_block < fb1.basic_blocks.length := by
      rw [h1.curEq, h1.lenEq]; exact hlt
    obtain ⟨ops2, hops2, hd2⟩ := h2.delta hlt1
    rw [h1.curEq] at hops2
    refine ⟨ops1 ++ ops2, ?_, ?_⟩
    · rw [hops2, hops1, List.append_assoc]
    · rw [opsDelta_append, hd1, hd2]

theorem push (fb : FunctionBuilder) (op : OpCode) :
    SLStep fb (fb.pushOp op) op.stackDelta := by
  refine ⟨rfl, fb.pushOp_length op, fun i hi => fb.pushOp_get_ne op hi, fun hlt => ?_⟩
  exact ⟨[op], fb.pushOp_blockOps_self op hlt, opsDelta_single op⟩

theorem set_module_functions (fb : FunctionBuilder) (m : List (List BasicBlock)) :
    SLStep fb { fb with module_functions := m } 0 :=
  ⟨rfl, rfl, fun _ _ => rfl, fun _ => ⟨[], by simp [FunctionBuilder.blockOps], rfl⟩⟩

theorem cast {fb fbF : FunctionBuilder} {d d' : Int}
    (h : SLStep fb fbF d) (hd : d = d') : SLStep fb fbF d' := hd ▸ h

theorem wf {fb fbF : FunctionBuilder} {d : Int} (h : SLStep fb fbF d)
    (hwf : fb.wf) : fbF.wf := by
  simp only [FunctionBuilder.wf] at hwf ⊢
  rw [h.curEq, h.lenEq]; exact hwf

theorem toStmtPres {fb fbF : FunctionBuilder} {d : Int} (h : SLStep fb fbF d)
    (hwf : fb.wf) : StmtPres fb fbF :=
  ⟨le_of_eq h.curEq.symm, h.wf hwf,
   fun i hi => h.other i (by omega)⟩

end SLStep

namespace StmtPres

theorem seq {fb fb1 fb2 : FunctionBuilder}
    (h1 : StmtPres fb fb1) (h2 : StmtPres fb1 fb2) : StmtPres fb fb2 :=
  ⟨le_trans h1.mono h2.mono, h2.wf,
   fun i hi => (h2.below i (lt_of_lt_of_le hi h1.mono)).trans (h1.below i hi)⟩

theorem pushStay {fb : FunctionBuilder} (op : OpCode) (hwf : fb.wf) :
    StmtPres fb (fb.pushOp op) :=
  (SLStep.push fb op).toStmtPres hwf

theorem pushAt {fb : FunctionBuilder} {j : Nat} (op : OpCode) (hwf : fb.wf)
    (hj : fb.current_basic_block ≤ j) : StmtPres fb (fb.pushOpAt j op) :=
  ⟨le_of_eq rfl, fb.pushOpAt_wf j op hwf,
   fun i hi => fb.pushOpAt_get_ne op (by omega)⟩

theorem moveF {fb : FunctionBuilder} (hwf : fb.wf) : StmtPres fb fb.move_forward :=
  ⟨by simp [FunctionBuilder.move_forward_current], fb.move_forward_wf hwf,
   fun i hi => fb.move_forward_get_lt (by
     simp only [FunctionBuilder.wf] at hwf; omega)⟩

theorem scopes {fb fb' : FunctionBuilder}
    (hb : fb'.basic_blocks = fb.basic_blocks)
    (hc : fb'.current_basic_block = fb.current_basic_block)
    (hwf : fb.wf) : StmtPres fb fb' :=
  ⟨le_of_eq hc.symm, by simp only [FunctionBuilder.wf, hb, hc]; exact hwf,
   fun i _ => by rw [hb]⟩

end StmtPres

/-! ### The straight-line / statement invariants of the generator -/

/-- Restricted-mode contract for one expression: on success the current block
is extended by opcodes of net stack effect `+1` and nothing else changes
(spec section 4.2, restricted mode). -/
def ExprSL (e : Expr) : Prop :=
  ∀ fb fbF, Expr.restricted_generate_code e fb = Except.ok fbF → SLStep fb fbF 1

def ExprListSL (es : List Expr) : Prop :=
  ∀ fb fbF, genExprList es fb = Except.ok fbF → SLStep fb fbF (es.length : Int)

def TableSL (es : List Expr) : Prop :=
  ∀ fb fbF, genTableElems es fb = Except.ok fbF → SLStep fb fbF 0

def CallSL (t : Expr) (a : List Expr) : Prop :=
  ∀ fb fbF, genCallExpr t a fb = Except.ok fbF → SLStep fb fbF 1

def BinarySL (l r : Expr) : Prop :=
  ∀ op fb fbF, genBinary l r op fb = Except.ok fbF → SLStep fb fbF (2 + op.stackDelta)

def LhsSetSL (l : Lhs) : Prop :=
  ∀ fb fbF, Lhs.build_set l fb = Except.ok fbF → SLStep fb fbF (-1)

def SetPairsSL (ls : List Lhs) (es : List Expr) : Prop :=
  ∀ fb fbF, genSetPairs ls es fb = Except.ok fbF → SLStep fb fbF 0

def LocalPairsSL (ls : List Lhs) (es : List Expr) : Prop :=
  ∀ fb fbF, genLocalPairs ls es fb = Except.ok fbF → SLStep fb fbF 0

/-- Unrestricted-mode contract for one statement: the cursor moves only
forward, well-formedness is preserved, blocks before the entry cursor are
untouched. -/
def StmtPre (s : Stmt) : Prop :=
  ∀ fb fbF, fb.wf → Stmt.unrestricted_generate_code s fb = Except.ok fbF → StmtPres fb fbF

def StmtListPre (ss : List Stmt) : Prop :=
  ∀ fb fbF, fb.wf → genStmtList ss fb = Except.ok fbF → StmtPres fb fbF

def BlockPre (b : Block) : Prop :=
  ∀ fb fbF, fb.wf → Block.unrestricted_generate_code b fb = Except.ok fbF → StmtPres fb fbF

/-- Induction bundle: all contracts, for nodes of size strictly below `n`. -/
def GenIH (n : Nat) : Prop :=
  (∀ e, sizeOf e < n → ExprSL e) ∧
  (∀ es : List Expr, sizeOf es < n → ExprListSL es) ∧
  (∀ es : List Expr, sizeOf es < n → TableSL es) ∧
  (∀ t a, sizeOf t + sizeOf a < n → CallSL t a) ∧
  (∀ l r, sizeOf l + sizeOf r < n → BinarySL l r) ∧
  (∀ l, sizeOf l < n → LhsSetSL l) ∧
  (∀ ls es, sizeOf ls + sizeOf es < n → SetPairsSL ls es) ∧
  (∀ ls es, sizeOf ls + sizeOf es < n → LocalPairsSL ls es) ∧
  (∀ s, sizeOf s < n → StmtPre s) ∧
  (∀ ss : List Stmt, sizeOf ss < n → StmtListPre ss) ∧
  (∀ b, sizeOf b < n → BlockPre b)

theorem SLStep.same_blocks {fb fb' : FunctionBuilder}
    (hb : fb'.basic_blocks = fb.basic_blocks)
    (hc : fb'.current_basic_block = fb.current_basic_block) : SLStep fb fb' 0 :=
  ⟨hc, by rw [hb], fun i _ => by rw [hb], fun _ =>
    ⟨[], by simp [FunctionBuilder.blockOps, hb], rfl⟩⟩

theorem build_get_sl (v : VarLocation) (fb : FunctionBuilder) :
    SLStep fb (v.build_get fb) 1 := by
  cases v <;> exact SLStep.push fb _

theorem build_set_sl (v : VarLocation) (fb : FunctionBuilder) :
    SLStep fb (v.build_set fb) (-1) := by
  cases v <;> exact SLStep.push fb _

theorem create_local_sl (fb : FunctionBuilder) (k : String) :
    SLStep fb (fb.create_local k).2 0 :=
  SLStep.same_blocks rfl rfl

theorem build_new_local_sl (l : Lhs) (fb fbF : FunctionBuilder)
    (h : Lhs.build_new_local l fb = Except.ok fbF) : SLStep fb fbF (-1) := by
  cases l with
  | Id id =>
    simp only [Lhs.build_new_local, Except.ok.injEq] at h
    subst h
    exact ((create_local_sl fb id).trans (build_set_sl _ _)).cast (by decide)
  | Index t i => simp [Lhs.build_new_local] at h

theorem StmtPres.unchanged {fb : FunctionBuilder} (hwf : fb.wf) : StmtPres fb fb :=
  ⟨le_rfl, hwf, fun _ _ => rfl⟩

/-! ### One step lemma per generator function, parameterized by the bundle -/

theorem step_exprList (n : Nat) (ih : GenIH n) (es : List Expr) (hsz : sizeOf es ≤ n) :
    ExprListSL es := by
  obtain ⟨ihe, ihes, -, -, -, -, -, -, -, -, -⟩ := ih
  intro fb fbF h
  cases es with
  | nil =>
    simp only [genExprList, Except.ok.injEq] at h
    subst h
    exact (SLStep.refl fb).cast (by simp)
  | cons e rest =>
    simp only [genExprList] at h
    split at h
    · simp at h
    next fb1 heq =>
      have hesz : sizeOf e < n := by simp at hsz; omega
      have hrsz : sizeOf rest < n := by simp at hsz; omega
      have s1 := ihe e hesz fb fb1 heq
      have s2 := ihes rest hrsz fb1 fbF h
      exact (s1.trans s2).cast (by push_cast [List.length_cons]; ring)

theorem step_tableElems (n : Nat) (ih : GenIH n) (es : List Expr) (hsz : sizeOf es ≤ n) :
    TableSL es := by
  obtain ⟨ihe, -, ihtab, -, -, -, -, -, -, -, -⟩ := ih
  intro fb fbF h
  cases es with
  | nil =>
    simp only [genTableElems, Except.ok.injEq] at h
    subst h
    exact SLStep.refl fb
  | cons v rest =>
    simp only [genTableElems] at h
    split at h
    · simp at h
    next fb1 heq =>
      have hvsz : sizeOf v < n := by simp at hsz; omega
      have hrsz : sizeOf rest < n := by simp at hsz; omega
      have s0 := SLStep.push fb OpCode.Dup
      have s1 := ihe v hvsz _ fb1 heq
      have s2 := SLStep.push fb1 OpCode.Rotate2
      have s3 := SLStep.push (fb1.pushOp OpCode.Rotate2) OpCode.TableSet
      have s4 := ihtab rest hrsz _ fbF h
      exact ((((s0.trans s1).trans s2).trans s3).trans s4).cast (by decide)

theorem step_binary (n : Nat) (ih : GenIH n) (l r : Expr)
    (hsz : sizeOf l + sizeOf r ≤ n) : BinarySL l r := by
  obtain ⟨ihe, -, -, -, -, -, -, -, -, -, -⟩ := ih
  intro op fb fbF h
  simp only [genBinary] at h
  split at h
  · simp at h
  next fb1 heq1 =>
    split at h
    · simp at h
    next fb2 heq2 =>
      simp only [Except.ok.injEq] at h
      subst h
      have hlsz : sizeOf l < n := by
        have := Expr.one_le_sizeOf r; omega
      have hrsz : sizeOf r < n := by
        have := Expr.one_le_sizeOf l; omega
      have s1 := ihe l hlsz fb fb1 heq1
      have s2 := ihe r hrsz fb1 fb2 heq2
      have s3 := SLStep.push fb2 OpCode.Rotate2
      have s4 := SLStep.push (fb2.pushOp OpCode.Rotate2) op
      exact (((s1.trans s2).trans s3).trans s4).cast
        (by simp only [OpCode.stackDelta]; ring)

theorem step_call (n : Nat) (ih : GenIH n) (t : Expr) (a : List Expr)
    (hsz : sizeOf t + sizeOf a ≤ n) : CallSL t a := by
  obtain ⟨ihe, ihes, -, -, -, -, -, -, -, -, -⟩ := ih
  intro fb fbF h
  simp only [genCallExpr] at h
  split at h
  · simp at h
  next fb1 heq1 =>
    split at h
    · simp at h
    next fb2 heq2 =>
      simp only [Except.ok.injEq] at h
      subst h
      have hasz : sizeOf a < n := by
        have := Expr.one_le_sizeOf t; omega
      have htsz : sizeOf t < n := by
        have := one_le_sizeOf_list a; omega
      have s1 := ihes a hasz fb fb1 heq1
      have s2 := SLStep.push fb1 (OpCode.RotateReverse a.length)
      have s3 := SLStep.push (fb1.pushOp (OpCode.RotateReverse a.length)) OpCode.LoadNull
      have s4 := ihe t htsz _ fb2 heq2
      have s5 := SLStep.push fb2 (OpCode.Call a.length)
      exact ((((s1.trans s2).trans s3).trans s4).trans s5).cast
        (by simp [OpCode.stackDelta]; ring)

theorem step_lhsSet (n : Nat) (ih : GenIH n) (l : Lhs) (hsz : sizeOf l ≤ n) :
    LhsSetSL l := by
  obtain ⟨ihe, -, -, -, -, -, -, -, -, -, -⟩ := ih
  intro fb fbF h
  cases l with
  | Id id =>
    simp only [Lhs.build_set, Except.ok.injEq] at h
    subst h
    exact build_set_sl _ fb
  | Index target index =>
    simp only [Lhs.build_set] at h
    split at h
    · simp at h
    next fb1 heq1 =>
      split at h
      · simp at h
      next fb2 heq2 =>
        simp only [Except.ok.injEq] at h
        subst h
        have hisz : sizeOf index < n := by simp at hsz; omega
        have htsz : sizeOf target < n := by simp at hsz; omega
        have s1 := ihe index hisz fb fb1 heq1
        have s2 := ihe target htsz fb1 fb2 heq2
        have s3 := SLStep.push fb2 OpCode.IndexSet
        exact ((s1.trans s2).trans s3).cast (by decide)

theorem step_setPairs (n : Nat) (ih : GenIH n) (ls : List Lhs) (es : List Expr)
    (hsz : sizeOf ls + sizeOf es ≤ n) : SetPairsSL ls es := by
  obtain ⟨ihe, -, -, -, -, ihlhs, ihset, -, -, -, -⟩ := ih
  intro fb fbF h
  match ls, es with
  | [], _ =>
    simp only [genSetPairs, Except.ok.injEq] at h
    subst h
    exact SLStep.refl fb
  | _ :: _, [] =>
    simp only [genSetPairs, Except.ok.injEq] at h
    subst h
    exact SLStep.refl fb
  | l :: ls', e :: es' =>
    simp only [genSetPairs] at h
    split at h
    · simp at h
    next fb1 heq1 =>
      split at h
      · simp at h
      next fb2 heq2 =>
        have hes : sizeOf e < n := by simp at hsz; omega
        have hls : sizeOf l < n := by simp at hsz; omega
        have hrest : sizeOf ls' + sizeOf es' < n := by simp at hsz; omega
        have s1 := ihe e hes fb fb1 heq1
        have s2 := ihlhs l hls fb1 fb2 heq2
        have s3 := ihset ls' es' hrest fb2 fbF h
        exact ((s1.trans s2).trans s3).cast (by decide)

theorem step_localPairs (n : Nat) (ih : GenIH n) (ls : List Lhs) (es : List Expr)
    (hsz : sizeOf ls + sizeOf es ≤ n) : LocalPairsSL ls es := by
  obtain ⟨ihe, -, -, -, -, -, -, ihloc, -, -, -⟩ := ih
  intro fb fbF h
  match ls, es with
  | [], _ =>
    simp only [genLocalPairs, Except.ok.injEq] at h
    subst h
    exact SLStep.refl fb
  | _ :: _, [] =>
    simp only [genLocalPairs, Except.ok.injEq] at h
    subst h
    exact SLStep.refl fb
  | l :: ls', e :: es' =>
    simp only [genLocalPairs] at h
    split at h
    · simp at h
    next fb1 heq1 =>
      split at h
      · simp at h
      next fb2 heq2 =>
        have hes : sizeOf e < n := by simp at hsz; omega
        have hrest : sizeOf ls' + sizeOf es' < n := by simp at hsz; omega
        have s1 := ihe e hes fb fb1 heq1
        have s2 := build_new_local_sl l fb1 fb2 heq2
        have s3 := ihloc ls' es' hrest fb2 fbF h
        exact ((s1.trans s2).trans s3).cast (by decide)

theorem step_expr (n : Nat) (ih : GenIH n) (e : Expr) (hsz : sizeOf e ≤ n) :
    ExprSL e := by
  obtain ⟨ihe, ihes, ihtab, ihcall, ihbin, -, -, -, -, -, ihb⟩ := ih
  intro fb fbF h
  cases e with
  | Nil =>
    simp only [Expr.restricted_generate_code, Except.ok.injEq] at h
    subst h
    exact SLStep.push fb OpCode.LoadNull
  | Dots => simp [Expr.restricted_generate_code] at h
  | Boolean v =>
    simp only [Expr.restricted_generate_code, Except.ok.injEq] at h
    subst h
    exact SLStep.push fb (OpCode.LoadBool v)
  | Number v =>
    simp only [Expr.restricted_generate_code, Except.ok.injEq] at h
    subst h
    exact SLStep.push fb (OpCode.LoadFloat v)
  | String s =>
    simp only [Expr.restricted_generate_code, Except.ok.injEq] at h
    subst h
    exact SLStep.push fb (OpCode.LoadString s)
  | Function vlhs blk =>
    simp only [Expr.restricted_generate_code] at h
    split at h
    · simp at h
    next arg_names hnames =>
      split at h
      · simp at h
      next nb hblk =>
        simp only [Except.ok.injEq] at h
        subst h
        exact ((SLStep.set_module_functions fb _).trans
          (SLStep.push _ (OpCode.LoadFunction _))).cast (by simp [OpCode.stackDelta])
  | Table elems =>
    simp only [Expr.restricted_generate_code, FunctionBuilder.write_table_create] at h
    have hb : sizeOf elems < n := by simp at hsz; omega
    have s0 := SLStep.push fb OpCode.CreateTable
    have s1 := ihtab elems hb _ fbF h
    exact (s0.trans s1).cast (by decide)
  | Add l r =>
    simp only [Expr.restricted_generate_code] at h
    have hb : sizeOf l + sizeOf r < n := by simp at hsz; omega
    exact (ihbin l r hb OpCode.Add fb fbF h).cast (by decide)
  | Sub l r =>
    simp only [Expr.restricted_generate_code] at h
    have hb : sizeOf l + sizeOf r < n := by simp at hsz; omega
    exact (ihbin l r hb OpCode.Sub fb fbF h).cast (by decide)
  | Mul l r =>
    simp only [Expr.restricted_generate_code] at h
    have hb : sizeOf l + sizeOf r < n := by simp at hsz; omega
    exact (ihbin l r hb OpCode.Mul fb fbF h).cast (by decide)
  | Div l r =>
    simp only [Expr.restricted_generate_code] at h
    have hb : sizeOf l + sizeOf r < n := by simp at hsz; omega
    exact (ihbin l r hb OpCode.Div fb fbF h).cast (by decide)
  | Idiv l r =>
    simp only [Expr.restricted_generate_code] at h
    have hb : sizeOf l + sizeOf r < n := by simp at hsz; omega
    exact (ihbin l r hb OpCode.IntDiv fb fbF h).cast (by decide)
  | Mod l r =>
    simp only [Expr.restricted_generate_code] at h
    have hb : sizeOf l + sizeOf r < n := by simp at hsz; omega
    exact (ihbin l r hb OpCode.Mod fb fbF h).cast (by decide)
  | Pow l r =>
    simp only [Expr.restricted_generate_code] at h
    have hb : sizeOf l + sizeOf r < n := by simp at hsz; omega
    exact (ihbin l r hb OpCode.Pow fb fbF h).cast (by decide)
  | Concat l r =>
    simp only [Expr.restricted_generate_code] at h
    have hb : sizeOf l + sizeOf r < n := by simp at hsz; omega
    exact (ihbin l r hb OpCode.Concat fb fbF h).cast (by decide)
  | Eq l r =>
    simp only [Expr.restricted_generate_code] at h
    have hb : sizeOf l + sizeOf r < n := by simp at hsz; omega
    exact (ihbin l r hb OpCode.TestEq fb fbF h).cast (by decide)
  | Ne l r =>
    simp only [Expr.restricted_generate_code] at h
    have hb : sizeOf l + sizeOf r < n := by simp at hsz; omega
    exact (ihbin l r hb OpCode.TestNe fb fbF h).cast (by decide)
  | Lt l r =>
    simp only [Expr.restricted_generate_code] at h
    have hb : sizeOf l + sizeOf r < n := by simp at hsz; omega
    exact (ihbin l r hb OpCode.TestLt fb fbF h).cast (by decide)
  | Gt l r =>
    simp only [Expr.restricted_generate_code] at h
    have hb : sizeOf l + sizeOf r < n := by simp at hsz; omega
    exact (ihbin l r hb OpCode.TestGt fb fbF h).cast (by decide)
  | Le l r =>
    simp only [Expr.restricted_generate_code] at h
    have hb : sizeOf l + sizeOf r < n := by simp at hsz; omega
    exact (ihbin l r hb OpCode.TestLe fb fbF h).cast (by decide)
  | Ge l r =>
    simp only [Expr.restricted_generate_code] at h
    have hb : sizeOf l + sizeOf r < n := by simp at hsz; omega
    exact (ihbin l r hb OpCode.TestGe fb fbF h).cast (by decide)
  | Pair l r =>
    simp only [Expr.restricted_generate_code] at h
    have hb : sizeOf l + sizeOf r < n := by simp at hsz; omega
    exact (ihbin l r hb OpCode.CreatePair fb fbF h).cast (by decide)
  | Not v =>
    simp only [Expr.restricted_generate_code] at h
    split at h
    · simp at h
    next fb1 heq =>
      simp only [Except.ok.injEq] at h
      subst h
      have hb : sizeOf v < n := by simp at hsz; omega
      exact ((ihe v hb fb fb1 heq).trans (SLStep.push fb1 OpCode.NotOp)).cast (by decide)
  | Call target args =>
    simp only [Expr.restricted_generate_code] at h
    have hb : sizeOf target + sizeOf args < n := by simp at hsz; omega
    exact ihcall target args hb fb fbF h
  | Id k =>
    simp only [Expr.restricted_generate_code, Except.ok.injEq] at h
    subst h
    exact build_get_sl _ fb
  | Index target index =>
    simp only [Expr.restricted_generate_code] at h
    split at h
    · simp at h
    next fb1 heq1 =>
      split at h
      · simp at h
      next fb2 heq2 =>
        simp only [Except.ok.injEq] at h
        subst h
        have hisz : sizeOf index < n := by simp at hsz; omega
        have htsz : sizeOf target < n := by simp at hsz; omega
        have s1 := ihe index hisz fb fb1 heq1
        have s2 := ihe target htsz fb1 fb2 heq2
        exact ((s1.trans s2).trans (SLStep.push fb2 OpCode.IndexGet)).cast (by decide)

namespace FunctionBuilder

theorem pushScope_wf (fb : FunctionBuilder) (h : fb.wf) : fb.pushScope.wf := h

theorem popScope_wf (fb : FunctionBuilder) (h : fb.wf) : fb.popScope.wf := h

theorem pushLci_wf (fb : FunctionBuilder) (lci : LoopControlInfo) (h : fb.wf) :
    (fb.pushLci lci).wf := h

theorem popLci_wf (fb : FunctionBuilder) (h : fb.wf) : fb.popLci.wf := h

end FunctionBuilder

/-- Unfolding of a successful `While` lowering: the condition is generated
(in restricted mode) in the freshly entered condition-check block; the body
is lowered in a new scope under a loop-control context whose break target is
the break-target block and whose continue target is the condition-check
block; then the two patches are applied. -/
theorem while_ok_shape (cond : Expr) (blk : Block) (fb fbF : FunctionBuilder)
    (h : Stmt.unrestricted_generate_code (Stmt.While cond blk) fb = Except.ok fbF) :
    ∃ fb1 fb2,
      Expr.restricted_generate_code cond
        (((fb.pushScope).pushOp (OpCode.Branch (fb.current_basic_block + 1))).move_forward)
        = Except.ok fb1 ∧
      Block.unrestricted_generate_code blk
        (((fb1.move_forward).move_forward).pushLci
          ⟨fb1.current_basic_block + 1, fb.current_basic_block + 1⟩)
        = Except.ok fb2 ∧
      fbF = (((((fb2.popLci).pushOp (OpCode.Branch (fb.current_basic_block + 1))).move_forward
          ).pushOpAt (fb1.current_basic_block + 1)
            (OpCode.Branch (fb2.current_basic_block + 1))
          ).pushOpAt (fb.current_basic_block + 1)
            (OpCode.ConditionalBranch (fb1.current_basic_block + 2)
              (fb2.current_basic_block + 1))).popScope := by
  simp only [Stmt.unrestricted_generate_code] at h
  split at h
  · simp at h
  next fb1 heq1 =>
    split at h
    · simp at h
    next fb2 heq2 =>
      simp only [Except.ok.injEq] at h
      exact ⟨fb1, fb2, heq1, heq2, h.symm⟩

theorem step_stmtList (n : Nat) (ih : GenIH n) (ss : List Stmt) (hsz : sizeOf ss ≤ n) :
    StmtListPre ss := by
  obtain ⟨-, -, -, -, -, -, -, -, ihs, ihss, -⟩ := ih
  intro fb fbF hwf h
  cases ss with
  | nil =>
    simp only [genStmtList, Except.ok.injEq] at h
    subst h
    exact StmtPres.unchanged hwf
  | cons s rest =>
    simp only [genStmtList] at h
    split at h
    · simp at h
    next fb1 heq =>
      have hssz : sizeOf s < n := by simp at hsz; omega
      have hrsz : sizeOf rest < n := by simp at hsz; omega
      have p1 := ihs s hssz fb fb1 hwf heq
      have p2 := ihss rest hrsz fb1 fbF p1.wf h
      exact p1.seq p2

theorem step_block (n : Nat) (ih : GenIH n) (b : Block) (hsz : sizeOf b ≤ n) :
    BlockPre b := by
  obtain hss := ih.2.2.2.2.2.2.2.2.2.1
  intro fb fbF hwf h
  cases b with
  | mk stmts =>
    simp only [Block.unrestricted_generate_code] at h
    have hb : sizeOf stmts < n := by simp at hsz; omega
    exact hss stmts hb fb fbF hwf h

theorem step_stmt (n : Nat) (ih : GenIH n) (s : Stmt) (hsz : sizeOf s ≤ n) :
    StmtPre s := by
  obtain ⟨ihe, -, -, ihcall, -, -, ihset, ihloc, -, ihss, ihb⟩ := ih
  intro fb fbF hwf h
  cases s with
  | Do stmts =>
    simp only [Stmt.unrestricted_generate_code] at h
    have hb : sizeOf stmts < n := by simp at hsz; omega
    exact ihss stmts hb fb fbF hwf h
  | Set lhs exprs =>
    simp only [Stmt.unrestricted_generate_code] at h
    split at h
    · simp at h
    · have hb : sizeOf lhs + sizeOf exprs < n := by simp at hsz; omega
      exact (ihset lhs exprs hb fb fbF h).toStmtPres hwf
  | Local lhs exprs =>
    simp only [Stmt.unrestricted_generate_code] at h
    split at h
    · simp at h
    · have hb : sizeOf lhs + sizeOf exprs < n := by simp at hsz; omega
      exact (ihloc lhs exprs hb fb fbF h).toStmtPres hwf
  | Call target args =>
    simp only [Stmt.unrestricted_generate_code] at h
    split at h
    · simp at h
    next fb1 heq =>
      simp only [Except.ok.injEq] at h
      subst h
      have hb : sizeOf target + sizeOf args < n := by simp at hsz; omega
      exact ((ihcall target args hb fb fb1 heq).trans
        (SLStep.push fb1 OpCode.Pop)).toStmtPres hwf
  | Return vals =>
    cases vals with
    | nil =>
      simp only [Stmt.unrestricted_generate_code, Except.ok.injEq] at h
      subst h
      have p1 : StmtPres fb (fb.pushOp OpCode.LoadNull) := StmtPres.pushStay OpCode.LoadNull hwf
      have p2 := StmtPres.pushStay OpCode.Return p1.wf
      have p3 := StmtPres.moveF p2.wf
      exact (p1.seq p2).seq p3
    | cons v rest =>
      cases rest with
      | nil =>
        simp only [Stmt.unrestricted_generate_code] at h
        split at h
        · simp at h
        next fb1 heq =>
          simp only [Except.ok.injEq] at h
          subst h
          have hb : sizeOf v < n := by simp at hsz; omega
          have p1 := (ihe v hb fb fb1 heq).toStmtPres hwf
          have p2 := StmtPres.pushStay OpCode.Return p1.wf
          have p3 := StmtPres.moveF p2.wf
          exact (p1.seq p2).seq p3
      | cons v2 rest2 => simp [Stmt.unrestricted_generate_code] at h
  | While cond blk =>
    obtain ⟨fb1, fb2, heq1, heq2, hF⟩ := while_ok_shape cond blk fb fbF h
    subst hF
    have hcsz : sizeOf cond < n := by simp at hsz; omega
    have hbsz : sizeOf blk < n := by simp at hsz; omega
    have p0 : StmtPres fb fb.pushScope := StmtPres.scopes rfl rfl hwf
    have p1 := StmtPres.pushStay (OpCode.Branch (fb.current_basic_block + 1)) p0.wf
    have p2 := StmtPres.moveF p1.wf
    have s1 := ihe cond hcsz _ fb1 heq1
    have p3 := s1.toStmtPres p2.wf
    have p4 := StmtPres.moveF p3.wf
    have p5 := StmtPres.moveF p4.wf
    have p6 : StmtPres ((fb1.move_forward).move_forward)
        (((fb1.move_forward).move_forward).pushLci
          ⟨fb1.current_basic_block + 1, fb.current_basic_block + 1⟩) :=
      StmtPres.scopes rfl rfl p5.wf
    have p7 := ihb blk hbsz _ fb2 p6.wf heq2
    have p8 : StmtPres fb2 fb2.popLci := StmtPres.scopes rfl rfl p7.wf
    have p9 := StmtPres.pushStay (OpCode.Branch (fb.current_basic_block + 1)) p8.wf
    have p10 := StmtPres.moveF p9.wf
    have chain :=
      (((((((((p0.seq p1).seq p2).seq p3).seq p4).seq p5).seq p6).seq
        p7).seq p8).seq p9).seq p10
    have hcur1 : fb1.current_basic_block = fb.current_basic_block + 1 := s1.curEq.trans rfl
    refine ⟨?_, ?_, ?_⟩
    · exact chain.mono
    · exact FunctionBuilder.popScope_wf _
        (FunctionBuilder.pushOpAt_wf _ _ _ (FunctionBuilder.pushOpAt_wf _ _ _ chain.wf))
    · intro i hi
      have hni1 : i ≠ fb.current_basic_block + 1 := by omega
      have hni2 : i ≠ fb1.current_basic_block + 1 := by omega
      rw [FunctionBuilder.popScope_blocks, FunctionBuilder.pushOpAt_get_ne _ _ hni1,
        FunctionBuilder.pushOpAt_get_ne _ _ hni2]
      exact chain.below i hi
  | Repeat b e => simp [Stmt.unrestricted_generate_code] at h
  | If arms els => simp [Stmt.unrestricted_generate_code] at h
  | Fornum a b c d e => simp [Stmt.unrestricted_generate_code] at h
  | Forin a b c => simp [Stmt.unrestricted_generate_code] at h
  | Localrec a b => simp [Stmt.unrestricted_generate_code] at h
  | Goto l => simp [Stmt.unrestricted_generate_code] at h
  | Label l => simp [Stmt.unrestricted_generate_code] at h
  | Break => simp [Stmt.unrestricted_generate_code] at h

theorem genIH_all : ∀ n, GenIH n := by
  intro n
  induction n using Nat.strong_induction_on with
  | _ n ihn =>
    refine ⟨?_, ?_, ?_, ?_, ?_, ?_, ?_, ?_, ?_, ?_, ?_⟩
    · exact fun e he => step_expr (sizeOf e) (ihn _ he) e le_rfl
    · exact fun es he => step_exprList (sizeOf es) (ihn _ he) es le_rfl
    · exact fun es he => step_tableElems (sizeOf es) (ihn _ he) es le_rfl
    · exact fun t a ha => step_call _ (ihn _ ha) t a le_rfl
    · exact fun l r hr => step_binary _ (ihn _ hr) l r le_rfl
    · exact fun l hl => step_lhsSet _ (ihn _ hl) l le_rfl
    · exact fun ls es hs => step_setPairs _ (ihn _ hs) ls es le_rfl
    · exact fun ls es hs => step_localPairs _ (ihn _ hs) ls es le_rfl
    · exact fun s hs => step_stmt _ (ihn _ hs) s le_rfl
    · exact fun ss hs => step_stmtList _ (ihn _ hs) ss le_rfl
    · exact fun b hb => step_block _ (ihn _ hb) b le_rfl

/-- Restricted mode: a successfully generated expression extends the current
basic block by opcodes of net stack effect exactly `+1`, moving neither the
cursor nor any other block. -/
theorem expr_straight_line (e : Expr) : ExprSL e :=
  step_expr (sizeOf e) (genIH_all _) e le_rfl

theorem exprList_straight_line (es : List Expr) : ExprListSL es :=
  step_exprList (sizeOf es) (genIH_all _) es le_rfl

theorem call_straight_line (t : Expr) (a : List Expr) : CallSL t a :=
  step_call _ (genIH_all _) t a le_rfl

theorem lhsSet_straight_line (l : Lhs) : LhsSetSL l :=
  step_lhsSet _ (genIH_all _) l le_rfl

theorem stmt_preserves (s : Stmt) : StmtPre s :=
  step_stmt _ (genIH_all _) s le_rfl

theorem block_preserves (b : Block) : BlockPre b :=
  step_block _ (genIH_all _) b le_rfl

/-! ### Claim theorems -/

/-- C1: for every `Set` statement and every `Local` statement whose target
list and value list have different lengths, lowering fails with the
length-mismatch shape error, and the builder state carried by the error is
the entry state unchanged — in particular no opcode has been emitted into any
basic block. -/
theorem C1_length_mismatch_no_emission (lhs : List Lhs) (exprs : List Expr)
    (fb : FunctionBuilder) (h : lhs.length ≠ exprs.length) :
    Stmt.unrestricted_generate_code (Stmt.Set lhs exprs) fb
      = Except.error (⟨"Set: lhs & exprs length mismatch"⟩, fb) ∧
    Stmt.unrestricted_generate_code (Stmt.Local lhs exprs) fb
      = Except.error (⟨"Local: lhs & exprs length mismatch"⟩, fb) := by
  constructor <;> simp [Stmt.unrestricted_generate_code, h]

theorem C1_length_mismatch_no_emission_witness :
    ([] : List Lhs).length ≠ [Expr.Nil].length ∧
    (Stmt.unrestricted_generate_code (Stmt.Set [] [Expr.Nil]) initFB
        = Except.error (⟨"Set: lhs & exprs length mismatch"⟩, initFB) ∧
      Stmt.unrestricted_generate_code (Stmt.Local [] [Expr.Nil]) initFB
        = Except.error (⟨"Local: lhs & exprs length mismatch"⟩, initFB)) :=
  ⟨by decide, C1_length_mismatch_no_emission [] [Expr.Nil] initFB (by decide)⟩

/-- C5: `Return` with zero values emits `LoadNull` then `Return` (and moves
to a fresh block); with exactly one value it generates the value in
restricted mode and then emits `Return`; with two or more values it fails
with the unsupported-feature error, leaving the builder unchanged — never a
silent truncation. -/
theorem C5_return_lowering :
    (∀ fb : FunctionBuilder,
      Stmt.unrestricted_generate_code (Stmt.Return []) fb
        = Except.ok (((fb.pushOp OpCode.LoadNull).pushOp OpCode.Return).move_forward)) ∧
    (∀ (v : Expr) (fb fb1 : FunctionBuilder),
      Expr.restricted_generate_code v fb = Except.ok fb1 →
      Stmt.unrestricted_generate_code (Stmt.Return [v]) fb
        = Except.ok ((fb1.pushOp OpCode.Return).move_forward)) ∧
    (∀ (v1 v2 : Expr) (vs : List Expr) (fb : FunctionBuilder),
      Stmt.unrestricted_generate_code (Stmt.Return (v1 :: v2 :: vs)) fb
        = Except.error (⟨"Multiple return values is not supported for now"⟩, fb)) :=
  ⟨fun fb => by simp [Stmt.unrestricted_generate_code],
   fun v fb fb1 hv => by simp [Stmt.unrestricted_generate_code, hv],
   fun v1 v2 vs fb => by simp [Stmt.unrestricted_generate_code]⟩

theorem C5_return_lowering_witness :
    Expr.restricted_generate_code Expr.Nil initFB
        = Except.ok (initFB.pushOp OpCode.LoadNull) ∧
    Stmt.unrestricted_generate_code (Stmt.Return [Expr.Nil]) initFB
      = Except.ok (((initFB.pushOp OpCode.LoadNull).pushOp OpCode.Return).move_forward) :=
  ⟨by simp [Expr.restricted_generate_code],
   C5_return_lowering.2.1 Expr.Nil initFB (initFB.pushOp OpCode.LoadNull)
     (by simp [Expr.restricted_generate_code])⟩

/-- C9: an identifier that resolves in no enclosing local or upvalue scope
lowers successfully to a field read of the name against the implicit dynamic
"this" environment; it never raises an unresolved-identifier error. -/
theorem C9_unresolved_id_env_fallback (k : String) (fb : FunctionBuilder)
    (h : fb.lookup_var k = none) :
    Expr.restricted_generate_code (Expr.Id k) fb
      = Except.ok (fb.pushOp (OpCode.GetThisField k)) := by
  simp [Expr.restricted_generate_code, h, VarLocation.build_get]

theorem C9_unresolved_id_env_fallback_witness :
    initFB.lookup_var "x" = none ∧
    Expr.restricted_generate_code (Expr.Id "x") initFB
      = Except.ok (initFB.pushOp (OpCode.GetThisField "x")) :=
  ⟨rfl, C9_unresolved_id_env_fallback "x" initFB rfl⟩

/-- The original claim C4 says `Repeat` is lowered like `While`; in fact a
`repeat ... until` statement hits the catch-all arm and fails as
unimplemented on a fresh builder. -/
theorem C4_repeat_unimplemented_counterexample :
    resultErrDesc (Stmt.unrestricted_generate_code
      (Stmt.Repeat (Block.mk []) Expr.Nil) initFB) = some "Not implemented" := by
  simp [Stmt.unrestricted_generate_code, resultErrDesc]

/-- C4 (amended): the statement forms whose lowering always fails with the
"Not implemented" error are exactly `Repeat`, `If`, `Fornum`, `Forin`,
`Localrec`, `Goto`, `Label` and `Break` — the error leaves the builder
unchanged.  Each of the remaining six forms (`Do`, `Set`, `While`, `Local`,
`Call`, `Return`) has instances that lower without producing any error. -/
theorem C4_unimplemented_form_set :
    (∀ (b : Block) (e : Expr) (fb : FunctionBuilder),
      Stmt.unrestricted_generate_code (Stmt.Repeat b e) fb
        = Except.error (⟨"Not implemented"⟩, fb)) ∧
    (∀ (arms : List (Expr × Block)) (els : Option Block) (fb : FunctionBuilder),
      Stmt.unrestricted_generate_code (Stmt.If arms els) fb
        = Except.error (⟨"Not implemented"⟩, fb)) ∧
    (∀ (a : Lhs) (b c : Expr) (d : Option Expr) (e : Block) (fb : FunctionBuilder),
      Stmt.unrestricted_generate_code (Stmt.Fornum a b c d e) fb
        = Except.error (⟨"Not implemented"⟩, fb)) ∧
    (∀ (a : List Lhs) (b : List Expr) (c : Block) (fb : FunctionBuilder),
      Stmt.unrestricted_generate_code (Stmt.Forin a b c) fb
        = Except.error (⟨"Not implemented"⟩, fb)) ∧
    (∀ (a : Lhs) (b : Expr) (fb : FunctionBuilder),
      Stmt.unrestricted_generate_code (Stmt.Localrec a b) fb
        = Except.error (⟨"Not implemented"⟩, fb)) ∧
    (∀ (l : String) (fb : FunctionBuilder),
      Stmt.unrestricted_generate_code (Stmt.Goto l) fb
        = Except.error (⟨"Not implemented"⟩, fb)) ∧
    (∀ (l : String) (fb : FunctionBuilder),
      Stmt.unrestricted_generate_code (Stmt.Label l) fb
        = Except.error (⟨"Not implemented"⟩, fb)) ∧
    (∀ fb : FunctionBuilder,
      Stmt.unrestricted_generate_code Stmt.Break fb
        = Except.error (⟨"Not implemented"⟩, fb)) ∧
    (∀ fb : FunctionBuilder,
      resultErrDesc (Stmt.unrestricted_generate_code (Stmt.Do []) fb) = none) ∧
    (∀ fb : FunctionBuilder,
      resultErrDesc (Stmt.unrestricted_generate_code (Stmt.Set [] []) fb) = none) ∧
    (∀ fb : FunctionBuilder,
      resultErrDesc (Stmt.unrestricted_generate_code
        (Stmt.While Expr.Nil (Block.mk [])) fb) = none) ∧
    (∀ fb : FunctionBuilder,
      resultErrDesc (Stmt.unrestricted_generate_code (Stmt.Local [] []) fb) = none) ∧
    (∀ fb : FunctionBuilder,
      resultErrDesc (Stmt.unrestricted_generate_code (Stmt.Call Expr.Nil []) fb) = none) ∧
    (∀ fb : FunctionBuilder,
      resultErrDesc (Stmt.unrestricted_generate_code (Stmt.Return []) fb) = none) := by
  refine ⟨fun b e fb => by simp [Stmt.unrestricted_generate_code],
    fun arms els fb => by simp [Stmt.unrestricted_generate_code],
    fun a b c d e fb => by simp [Stmt.unrestricted_generate_code],
    fun a b c fb => by simp [Stmt.unrestricted_generate_code],
    fun a b fb => by simp [Stmt.unrestricted_generate_code],
    fun l fb => by simp [Stmt.unrestricted_generate_code],
    fun l fb => by simp [Stmt.unrestricted_generate_code],
    fun fb => by simp [Stmt.unrestricted_generate_code],
    fun fb => by simp [Stmt.unrestricted_generate_code, genStmtList, resultErrDesc],
    fun fb => by simp [Stmt.unrestricted_generate_code, genSetPairs, resultErrDesc],
    fun fb => by
      simp [Stmt.unrestricted_generate_code, Expr.restricted_generate_code,
        Block.unrestricted_generate_code, genStmtList, resultErrDesc],
    fun fb => by simp [Stmt.unrestricted_generate_code, genLocalPairs, resultErrDesc],
    fun fb => by
      simp [Stmt.unrestricted_generate_code, genCallExpr, genExprList,
        Expr.restricted_generate_code, resultErrDesc],
    fun fb => by simp [Stmt.unrestricted_generate_code, resultErrDesc]⟩

/-- Any statement list containing a top-level `Break` fails to lower (the
`Break` itself raises "Not implemented"; a failure earlier in the list also
aborts). -/
theorem stmtList_with_break_errors (pre : List Stmt) :
    ∀ (post : List Stmt) (fb : FunctionBuilder),
      ∃ (e : CodegenError) (fbE : FunctionBuilder),
        genStmtList (pre ++ Stmt.Break :: post) fb = Except.error (e, fbE) := by
  induction pre with
  | nil =>
    intro post fb
    exact ⟨⟨"Not implemented"⟩, fb, by simp [genStmtList, Stmt.unrestricted_generate_code]⟩
  | cons s rest ih =>
    intro post fb
    cases hs : Stmt.unrestricted_generate_code s fb with
    | error err =>
      obtain ⟨e1, f1⟩ := err
      exact ⟨e1, f1, by simp [genStmtList, hs]⟩
    | ok fb1 =>
      obtain ⟨e1, f1, he⟩ := ih post fb1
      exact ⟨e1, f1, by simp [genStmtList, hs, he]⟩

theorem stmtList_with_break_never_ok (pre post : List Stmt) (fb fbF : FunctionBuilder)
    (h : genStmtList (pre ++ Stmt.Break :: post) fb = Except.ok fbF) : False := by
  obtain ⟨e1, f1, he⟩ := stmtList_with_break_errors pre post fb
  rw [he] at h
  simp at h

/-- The original claim C3 says a `while` whose body contains a `break`
compiles without error; on a fresh builder it in fact fails with the
"Not implemented" error raised for `Break`. -/
theorem C3_while_break_counterexample :
    resultErrDesc (Stmt.unrestricted_generate_code
      (Stmt.While Expr.Nil (Block.mk [Stmt.Break])) initFB) = some "Not implemented" := by
  simp [Stmt.unrestricted_generate_code, Expr.restricted_generate_code,
    Block.unrestricted_generate_code, genStmtList, resultErrDesc]

/-- C3 (amended): `Break` lowering is unimplemented (it fails with
"Not implemented", leaving the builder unchanged), and consequently every
`while` statement whose body contains a top-level `Break` fails to lower
(with the Break error, or with an earlier error from a preceding statement);
it never compiles successfully, so no break edge is ever emitted. -/
theorem C3_while_with_break_fails :
    (∀ fb : FunctionBuilder,
      Stmt.unrestricted_generate_code Stmt.Break fb
        = Except.error (⟨"Not implemented"⟩, fb)) ∧
    (∀ (cond : Expr) (pre post : List Stmt) (fb : FunctionBuilder),
      ∃ (e : CodegenError) (fbE : FunctionBuilder),
        Stmt.unrestricted_generate_code
          (Stmt.While cond (Block.mk (pre ++ Stmt.Break :: post))) fb
          = Except.error (e, fbE)) := by
  constructor
  · intro fb
    simp [Stmt.unrestricted_generate_code]
  · intro cond pre post fb
    simp only [Stmt.unrestricted_generate_code]
    split
    next e0 fbE0 heq => exact ⟨e0, fbE0.popScope, rfl⟩
    next fb1 heq =>
      split
      next e1 fbE1 heq2 => exact ⟨e1, (fbE1.popLci).popScope, rfl⟩
      next fb2 heq2 =>
        exfalso
        exact stmtList_with_break_never_ok pre post _ fb2
          (by simpa [Block.unrestricted_generate_code] using heq2)

theorem mem_lhss_get_used_vars {name : String} {ls : List Lhs}
    (h : Lhs.Id name ∈ ls) : name ∈ lhss_get_used_vars ls := by
  induction ls with
  | nil => cases h
  | cons l rest ih =>
    cases h with
    | head =>
      simp [lhss_get_used_vars, Lhs.get_used_vars]
    | tail _ hmem =>
      simp only [lhss_get_used_vars, List.mem_append]
      exact Or.inr (ih hmem)

/-- C10: the used-variable analyzer counts binding occurrences as uses: for
`Local` and `Set` statements it returns the names collected from the target
list (a bare target `Lhs.Id name` contributing `name`) concatenated before
the names collected from the value expressions; hence a local that is
declared but never referenced still appears in the result. -/
theorem C10_used_vars_count_bindings :
    (∀ (lhs : List Lhs) (exprs : List Expr),
      Stmt.get_used_vars (Stmt.Local lhs exprs)
        = lhss_get_used_vars lhs ++ exprs_get_used_vars exprs) ∧
    (∀ (lhs : List Lhs) (exprs : List Expr),
      Stmt.get_used_vars (Stmt.Set lhs exprs)
        = lhss_get_used_vars lhs ++ exprs_get_used_vars exprs) ∧
    (∀ name : String, Lhs.get_used_vars (Lhs.Id name) = [name]) ∧
    (∀ (name : String) (lhs : List Lhs) (exprs : List Expr),
      Lhs.Id name ∈ lhs → name ∈ Stmt.get_used_vars (Stmt.Local lhs exprs)) ∧
    (∀ (name : String) (lhs : List Lhs) (exprs : List Expr),
      Lhs.Id name ∈ lhs → name ∈ Stmt.get_used_vars (Stmt.Set lhs exprs)) := by
  refine ⟨fun lhs exprs => by simp [Stmt.get_used_vars],
    fun lhs exprs => by simp [Stmt.get_used_vars],
    fun name => by simp [Lhs.get_used_vars],
    fun name lhs exprs h => ?_, fun name lhs exprs h => ?_⟩ <;>
  · simp only [Stmt.get_used_vars, List.mem_append]
    exact Or.inl (mem_lhss_get_used_vars h)

theorem C10_used_vars_count_bindings_witness :
    Lhs.Id "unused" ∈ [Lhs.Id "unused"] ∧
    "unused" ∈ Stmt.get_used_vars (Stmt.Local [Lhs.Id "unused"] [Expr.Nil]) :=
  ⟨List.mem_singleton.mpr rfl,
   C10_used_vars_count_bindings.2.2.2.1 "unused" [Lhs.Id "unused"] [Expr.Nil]
     (List.mem_singleton.mpr rfl)⟩

/-- C7: a call expression with `n` arguments lowers to: the arguments' code
left to right (`genExprList` is that left-to-right loop), a stack-reverse
opcode over `n` elements, a `LoadNull` no-receiver placeholder, the callee's
code, and a call opcode parameterized with `n`, in exactly that order — also
when `n = 0`. -/
theorem C7_call_lowering (target : Expr) (args : List Expr) (fb fbF : FunctionBuilder)
    (h : Expr.restricted_generate_code (Expr.Call target args) fb = Except.ok fbF) :
    ∃ fb1 fb2,
      genExprList args fb = Except.ok fb1 ∧
      Expr.restricted_generate_code target
        ((fb1.pushOp (OpCode.RotateReverse args.length)).pushOp OpCode.LoadNull)
        = Except.ok fb2 ∧
      fbF = fb2.pushOp (OpCode.Call args.length) := by
  simp only [Expr.restricted_generate_code, genCallExpr] at h
  split at h
  · simp at h
  next fb1 heq1 =>
    split at h
    · simp at h
    next fb2 heq2 =>
      simp only [Except.ok.injEq] at h
      exact ⟨fb1, fb2, heq1, heq2, h.symm⟩

theorem C7_call_lowering_witness :
    Expr.restricted_generate_code (Expr.Call Expr.Nil []) initFB
        = Except.ok ((((initFB.pushOp (OpCode.RotateReverse 0)).pushOp
            OpCode.LoadNull).pushOp OpCode.LoadNull).pushOp (OpCode.Call 0)) ∧
    ∃ fb1 fb2,
      genExprList [] initFB = Except.ok fb1 ∧
      Expr.restricted_generate_code Expr.Nil
        ((fb1.pushOp (OpCode.RotateReverse ([] : List Expr).length)).pushOp OpCode.LoadNull)
        = Except.ok fb2 ∧
      (((initFB.pushOp (OpCode.RotateReverse 0)).pushOp
          OpCode.LoadNull).pushOp OpCode.LoadNull).pushOp (OpCode.Call 0)
        = fb2.pushOp (OpCode.Call ([] : List Expr).length) :=
  ⟨by simp [Expr.restricted_generate_code, genCallExpr, genExprList],
   C7_call_lowering Expr.Nil [] initFB _
     (by simp [Expr.restricted_generate_code, genCallExpr, genExprList])⟩

/-- C8: for index expressions and index assignment targets the key
expression's code is emitted before the base expression's code, followed by
the index-load opcode on the read path and the index-store opcode on the
write path — the key-before-base order is identical on both paths. -/
theorem C8_index_key_before_base :
    (∀ (target index : Expr) (fb fbF : FunctionBuilder),
      Lhs.build_set (Lhs.Index target index) fb = Except.ok fbF →
      ∃ fb1 fb2,
        Expr.restricted_generate_code index fb = Except.ok fb1 ∧
        Expr.restricted_generate_code target fb1 = Except.ok fb2 ∧
        fbF = fb2.pushOp OpCode.IndexSet) ∧
    (∀ (target index : Expr) (fb fbF : FunctionBuilder),
      Expr.restricted_generate_code (Expr.Index target index) fb = Except.ok fbF →
      ∃ fb1 fb2,
        Expr.restricted_generate_code index fb = Except.ok fb1 ∧
        Expr.restricted_generate_code target fb1 = Except.ok fb2 ∧
        fbF = fb2.pushOp OpCode.IndexGet) := by
  constructor
  · intro target index fb fbF h
    simp only [Lhs.build_set] at h
    split at h
    · simp at h
    next fb1 heq1 =>
      split at h
      · simp at h
      next fb2 heq2 =>
        simp only [Except.ok.injEq] at h
        exact ⟨fb1, fb2, heq1, heq2, h.symm⟩
  · intro target index fb fbF h
    simp only [Expr.restricted_generate_code] at h
    split at h
    · simp at h
    next fb1 heq1 =>
      split at h
      · simp at h
      next fb2 heq2 =>
        simp only [Except.ok.injEq] at h
        exact ⟨fb1, fb2, heq1, heq2, h.symm⟩

theorem C8_index_key_before_base_witness :
    Lhs.build_set (Lhs.Index Expr.Nil (Expr.Number 7)) initFB
        = Except.ok (((initFB.pushOp (OpCode.LoadFloat 7)).pushOp
            OpCode.LoadNull).pushOp OpCode.IndexSet) ∧
    ∃ fb1 fb2,
      Expr.restricted_generate_code (Expr.Number 7) initFB = Except.ok fb1 ∧
      Expr.restricted_generate_code Expr.Nil fb1 = Except.ok fb2 ∧
      ((initFB.pushOp (OpCode.LoadFloat 7)).pushOp
          OpCode.LoadNull).pushOp OpCode.IndexSet
        = fb2.pushOp OpCode.IndexSet :=
  ⟨by simp [Lhs.build_set, Expr.restricted_generate_code, FunctionBuilder.write_index_set],
   C8_index_key_before_base.1 Expr.Nil (Expr.Number 7) initFB _
     (by simp [Lhs.build_set, Expr.restricted_generate_code,
        FunctionBuilder.write_index_set])⟩

/-- C6: every binary-operator expression (arithmetic, comparison,
concatenation and pair forms, enumerated by `binOpView`) lowers to the left
operand's code, then the right operand's code, then the two-element
stack-reorder opcode, then the operator opcode; and the opcodes appended to
the current basic block have net stack effect exactly `+1`, regardless of
operand complexity. -/
theorem C6_binary_operator_lowering (e l r : Expr) (op : OpCode)
    (fb fbF : FunctionBuilder)
    (hview : binOpView e = some (l, r, op))
    (hin : fb.current_basic_block < fb.basic_blocks.length)
    (h : Expr.restricted_generate_code e fb = Except.ok fbF) :
    (∃ fb1 fb2,
      Expr.restricted_generate_code l fb = Except.ok fb1 ∧
      Expr.restricted_generate_code r fb1 = Except.ok fb2 ∧
      fbF = (fb2.pushOp OpCode.Rotate2).pushOp op) ∧
    ∃ ops,
      fbF.blockOps fb.current_basic_block = fb.blockOps fb.current_basic_block ++ ops
        ∧ opsDelta ops = 1 := by
  refine ⟨?_, (expr_straight_line e fb fbF h).delta hin⟩
  cases e with
  | Add l0 r0 =>
    simp only [binOpView, Option.some.injEq, Prod.mk.injEq] at hview
    obtain ⟨rfl, rfl, rfl⟩ := hview
    simp only [Expr.restricted_generate_code, genBinary] at h
    split at h
    · simp at h
    next fb1 heq1 =>
      split at h
      · simp at h
      next fb2 heq2 =>
        simp only [Except.ok.injEq] at h
        exact ⟨fb1, fb2, heq1, heq2, h.symm⟩
  | Sub l0 r0 =>
    simp only [binOpView, Option.some.injEq, Prod.mk.injEq] at hview
    obtain ⟨rfl, rfl, rfl⟩ := hview
    simp only [Expr.restricted_generate_code, genBinary] at h
    split at h
    · simp at h
    next fb1 heq1 =>
      split at h
      · simp at h
      next fb2 heq2 =>
        simp only [Except.ok.injEq] at h
        exact ⟨fb1, fb2, heq1, heq2, h.symm⟩
  | Mul l0 r0 =>
    simp only [binOpView, Option.some.injEq, Prod.mk.injEq] at hview
    obtain ⟨rfl, rfl, rfl⟩ := hview
    simp only [Expr.restricted_generate_code, genBinary] at h
    split at h
    · simp at h
    next fb1 heq1 =>
      split at h
      · simp at h
      next fb2 heq2 =>
        simp only [Except.ok.injEq] at h
        exact ⟨fb1, fb2, heq1, heq2, h.symm⟩
  | Div l0 r0 =>
    simp only [binOpView, Option.some.injEq, Prod.mk.injEq] at hview
    obtain ⟨rfl, rfl, rfl⟩ := hview
    simp only [Expr.restricted_generate_code, genBinary] at h
    split at h
    · simp at h
    next fb1 heq1 =>
      split at h
      · simp at h
      next fb2 heq2 =>
        simp only [Except.ok.injEq] at h
        exact ⟨fb1, fb2, heq1, heq2, h.symm⟩
  | Idiv l0 r0 =>
    simp only [binOpView, Option.some.injEq, Prod.mk.injEq] at hview
    obtain ⟨rfl, rfl, rfl⟩ := hview
    simp only [Expr.restricted_generate_code, genBinary] at h
    split at h
    · simp at h
    next fb1 heq1 =>
      split at h
      · simp at h
      next fb2 heq2 =>
        simp only [Except.ok.injEq] at h
        exact ⟨fb1, fb2, heq1, heq2, h.symm⟩
  | Mod l0 r0 =>
    simp only [binOpView, Option.some.injEq, Prod.mk.injEq] at hview
    obtain ⟨rfl, rfl, rfl⟩ := hview
    simp only [Expr.restricted_generate_code, genBinary] at h
    split at h
    · simp at h
    next fb1 heq1 =>
      split at h
      · simp at h
      next fb2 heq2 =>
        simp only [Except.ok.injEq] at h
        exact ⟨fb1, fb2, heq1, heq2, h.symm⟩
  | Pow l0 r0 =>
    simp only [binOpView, Option.some.injEq, Prod.mk.injEq] at hview
    obtain ⟨rfl, rfl, rfl⟩ := hview
    simp only [Expr.restricted_generate_code, genBinary] at h
    split at h
    · simp at h
    next fb1 heq1 =>
      split at h
      · simp at h
      next fb2 heq2 =>
        simp only [Except.ok.injEq] at h
        exact ⟨fb1, fb2, heq1, heq2, h.symm⟩
  | Concat l0 r0 =>
    simp only [binOpView, Option.some.injEq, Prod.mk.injEq] at hview
    obtain ⟨rfl, rfl, rfl⟩ := hview
    simp only [Expr.restricted_generate_code, genBinary] at h
    split at h
    · simp at h
    next fb1 heq1 =>
      split at h
      · simp at h
      next fb2 heq2 =>
        simp only [Except.ok.injEq] at h
        exact ⟨fb1, fb2, heq1, heq2, h.symm⟩
  | Eq l0 r0 =>
    simp only [binOpView, Option.some.injEq, Prod.mk.injEq] at hview
    obtain ⟨rfl, rfl, rfl⟩ := hview
    simp only [Expr.restricted_generate_code, genBinary] at h
    split at h
    · simp at h
    next fb1 heq1 =>
      split at h
      · simp at h
      next fb2 heq2 =>
        simp only [Except.ok.injEq] at h
        exact ⟨fb1, fb2, heq1, heq2, h.symm⟩
  | Ne l0 r0 =>
    simp only [binOpView, Option.some.injEq, Prod.mk.injEq] at hview
    obtain ⟨rfl, rfl, rfl⟩ := hview
    simp only [Expr.restricted_generate_code, genBinary] at h
    split at h
    · simp at h
    next fb1 heq1 =>
      split at h
      · simp at h
      next fb2 heq2 =>
        simp only [Except.ok.injEq] at h
        exact ⟨fb1, fb2, heq1, heq2, h.symm⟩
  | Lt l0 r0 =>
    simp only [binOpView, Option.some.injEq, Prod.mk.injEq] at hview
    obtain ⟨rfl, rfl, rfl⟩ := hview
    simp only [Expr.restricted_generate_code, genBinary] at h
    split at h
    · simp at h
    next fb1 heq1 =>
      split at h
      · simp at h
      next fb2 heq2 =>
        simp only [Except.ok.injEq] at h
        exact ⟨fb1, fb2, heq1, heq2, h.symm⟩
  | Gt l0 r0 =>
    simp only [binOpView, Option.some.injEq, Prod.mk.injEq] at hview
    obtain ⟨rfl, rfl, rfl⟩ := hview
    simp only [Expr.restricted_generate_code, genBinary] at h
    split at h
    · simp at h
    next fb1 heq1 =>
      split at h
      · simp at h
      next fb2 heq2 =>
        simp only [Except.ok.injEq] at h
        exact ⟨fb1, fb2, heq1, heq2, h.symm⟩
  | Le l0 r0 =>
    simp only [binOpView, Option.some.injEq, Prod.mk.injEq] at hview
    obtain ⟨rfl, rfl, rfl⟩ := hview
    simp only [Expr.restricted_generate_code, genBinary] at h
    split at h
    · simp at h
    next fb1 heq1 =>
      split at h
      · simp at h
      next fb2 heq2 =>
        simp only [Except.ok.injEq] at h
        exact ⟨fb1, fb2, heq1, heq2, h.symm⟩
  | Ge l0 r0 =>
    simp only [binOpView, Option.some.injEq, Prod.mk.injEq] at hview
    obtain ⟨rfl, rfl, rfl⟩ := hview
    simp only [Expr.restricted_generate_code, genBinary] at h
    split at h
    · simp at h
    next fb1 heq1 =>
      split at h
      · simp at h
      next fb2 heq2 =>
        simp only [Except.ok.injEq] at h
        exact ⟨fb1, fb2, heq1, heq2, h.symm⟩
  | Pair l0 r0 =>
    simp only [binOpView, Option.some.injEq, Prod.mk.injEq] at hview
    obtain ⟨rfl, rfl, rfl⟩ := hview
    simp only [Expr.restricted_generate_code, genBinary] at h
    split at h
    · simp at h
    next fb1 heq1 =>
      split at h
      · simp at h
      next fb2 heq2 =>
        simp only [Except.ok.injEq] at h
        exact ⟨fb1, fb2, heq1, heq2, h.symm⟩
  | Nil => simp [binOpView] at hview
  | Dots => simp [binOpView] at hview
  | Boolean v => simp [binOpView] at hview
  | Number v => simp [binOpView] at hview
  | String s => simp [binOpView] at hview
  | Function a b => simp [binOpView] at hview
  | Table t => simp [binOpView] at hview
  | Not v => simp [binOpView] at hview
  | Call t a => simp [binOpView] at hview
  | Id k => simp [binOpView] at hview
  | Index t i => simp [binOpView] at hview

theorem C6_binary_operator_lowering_witness :
    binOpView (Expr.Add Expr.Nil Expr.Nil) = some (Expr.Nil, Expr.Nil, OpCode.Add) ∧
    initFB.current_basic_block < initFB.basic_blocks.length ∧
    Expr.restricted_generate_code (Expr.Add Expr.Nil Expr.Nil) initFB
      = Except.ok ((((initFB.pushOp OpCode.LoadNull).pushOp
          OpCode.LoadNull).pushOp OpCode.Rotate2).pushOp OpCode.Add) ∧
    ((∃ fb1 fb2,
      Expr.restricted_generate_code Expr.Nil initFB = Except.ok fb1 ∧
      Expr.restricted_generate_code Expr.Nil fb1 = Except.ok fb2 ∧
      (((initFB.pushOp OpCode.LoadNull).pushOp
          OpCode.LoadNull).pushOp OpCode.Rotate2).pushOp OpCode.Add
        = (fb2.pushOp OpCode.Rotate2).pushOp OpCode.Add) ∧
    ∃ ops,
      ((((initFB.pushOp OpCode.LoadNull).pushOp
          OpCode.LoadNull).pushOp OpCode.Rotate2).pushOp OpCode.Add).blockOps
            initFB.current_basic_block
        = initFB.blockOps initFB.current_basic_block ++ ops ∧ opsDelta ops = 1) :=
  ⟨rfl, by decide,
   by simp [Expr.restricted_generate_code, genBinary],
   C6_binary_operator_lowering (Expr.Add Expr.Nil Expr.Nil) Expr.Nil Expr.Nil
     OpCode.Add initFB _ rfl (by decide)
     (by simp [Expr.restricted_generate_code, genBinary])⟩

theorem FunctionBuilder.blockOps_congr {fb fb' : FunctionBuilder} {i : Nat}
    (h : fb'.basic_blocks[i]? = fb.basic_blocks[i]?) : fb'.blockOps i = fb.blockOps i := by
  simp [FunctionBuilder.blockOps, h]

theorem FunctionBuilder.pushOp_blockOps_ne (fb : FunctionBuilder) {j : Nat} (op : OpCode)
    (h : j ≠ fb.current_basic_block) :
    (fb.pushOp op).blockOps j = fb.blockOps j :=
  fb.pushOpAt_blockOps_ne op h

/-- C2: a successfully lowered `while` has the documented four-block layout:
with `c` the entry cursor, the condition is generated in restricted mode in
the freshly entered condition-check block `c+1`; the body is lowered (in a
new scope) under a loop-control context with break target `c+2` (the
break-target block) and continue target `c+1`; the block preceding the loop
ends with an unconditional branch into `c+1`; the body's final block ends
with an unconditional branch back to `c+1`; the break-target block `c+2`
consists of a single unconditional branch to the after-loop block; the
condition-check block ends with a conditional branch whose true edge goes to
the body-entry block `c+3` and whose false edge goes to the after-loop
block; and lowering continues in the fresh after-loop block. -/
theorem C2_while_block_layout (cond : Expr) (blk : Block) (fb fbF : FunctionBuilder)
    (hwf : fb.wf)
    (h : Stmt.unrestricted_generate_code (Stmt.While cond blk) fb = Except.ok fbF) :
    ∃ fb1 fb2,
      Expr.restricted_generate_code cond
        (((fb.pushScope).pushOp (OpCode.Branch (fb.current_basic_block + 1))).move_forward)
        = Except.ok fb1 ∧
      fb1.current_basic_block = fb.current_basic_block + 1 ∧
      Block.unrestricted_generate_code blk
        (((fb1.move_forward).move_forward).pushLci
          ⟨fb1.current_basic_block + 1, fb.current_basic_block + 1⟩) = Except.ok fb2 ∧
      fb.current_basic_block + 3 ≤ fb2.current_basic_block ∧
      fbF.blockOps fb.current_basic_block
        = fb.blockOps fb.current_basic_block
            ++ [OpCode.Branch (fb.current_basic_block + 1)] ∧
      fbF.blockOps fb2.current_basic_block
        = fb2.blockOps fb2.current_basic_block
            ++ [OpCode.Branch (fb.current_basic_block + 1)] ∧
      fbF.blockOps (fb.current_basic_block + 2)
        = [OpCode.Branch (fb2.current_basic_block + 1)] ∧
      fbF.blockOps (fb.current_basic_block + 1)
        = fb2.blockOps (fb.current_basic_block + 1)
            ++ [OpCode.ConditionalBranch (fb.current_basic_block + 3)
                  (fb2.current_basic_block + 1)] ∧
      fbF.current_basic_block = fb2.current_basic_block + 1 := by
  obtain ⟨fb1, fb2, heq1, heq2, hF⟩ := while_ok_shape cond blk fb fbF h
  have s1 := expr_straight_line cond _ fb1 heq1
  have hcur1 : fb1.current_basic_block = fb.current_basic_block + 1 := s1.curEq.trans rfl
  have wS1 : ((((fb.pushScope).pushOp
      (OpCode.Branch (fb.current_basic_block + 1)))).move_forward).wf :=
    FunctionBuilder.move_forward_wf _
      (FunctionBuilder.pushOp_wf _ _ (fb.pushScope_wf hwf))
  have wfb1 : fb1.wf := s1.wf wS1
  have wS2 : ((((fb1.move_forward).move_forward).pushLci
      ⟨fb1.current_basic_block + 1, fb.current_basic_block + 1⟩)).wf :=
    FunctionBuilder.pushLci_wf _ _
      (FunctionBuilder.move_forward_wf _ (FunctionBuilder.move_forward_wf _ wfb1))
  have p7 := block_preserves blk _ fb2 wS2 heq2
  have wfb2 : fb2.wf := p7.wf
  have hwf1 : fb.current_basic_block + 1 = fb.basic_blocks.length := hwf
  have hlen1 : fb1.basic_blocks.length = fb.current_basic_block + 2 := by
    have hw := wfb1
    simp only [FunctionBuilder.wf] at hw
    omega
  have hlen2 : fb2.basic_blocks.length = fb2.current_basic_block + 1 := by
    have hw := wfb2
    simp only [FunctionBuilder.wf] at hw
    omega
  have hc3 : fb.current_basic_block + 3 ≤ fb2.current_basic_block := by
    have hm := p7.mono
    simp only [FunctionBuilder.pushLci_current, FunctionBuilder.move_forward_current] at hm
    omega
  have hF' : fbF =
      (((((fb2.popLci).pushOp (OpCode.Branch (fb.current_basic_block + 1))).move_forward
        ).pushOpAt (fb.current_basic_block + 2)
          (OpCode.Branch (fb2.current_basic_block + 1))
        ).pushOpAt (fb.current_basic_block + 1)
          (OpCode.ConditionalBranch (fb.current_basic_block + 3)
            (fb2.current_basic_block + 1))).popScope := by
    rw [hF, hcur1]
  set S1 := ((fb.pushScope).pushOp
      (OpCode.Branch (fb.current_basic_block + 1))).move_forward with hS1
  set S2 := ((fb1.move_forward).move_forward).pushLci
      ⟨fb1.current_basic_block + 1, fb.current_basic_block + 1⟩ with hS2
  set A := (fb2.popLci).pushOp (OpCode.Branch (fb.current_basic_block + 1)) with hA
  set B := A.move_forward with hB
  set X1 := B.pushOpAt (fb.current_basic_block + 2)
      (OpCode.Branch (fb2.current_basic_block + 1)) with hX1
  set X2 := X1.pushOpAt (fb.current_basic_block + 1)
      (OpCode.ConditionalBranch (fb.current_basic_block + 3)
        (fb2.current_basic_block + 1)) with hX2
  have hpl : (fb2.popLci).current_basic_block = fb2.current_basic_block := rfl
  have hAlen : A.basic_blocks.length = fb2.current_basic_block + 1 := by
    rw [hA, FunctionBuilder.pushOp_length]
    exact hlen2
  have hBlen : B.basic_blocks.length = fb2.current_basic_block + 2 := by
    rw [hB, FunctionBuilder.move_forward_length, hAlen]
  have hX1len : X1.basic_blocks.length = fb2.current_basic_block + 2 := by
    rw [hX1, FunctionBuilder.pushOpAt_length, hBlen]
  refine ⟨fb1, fb2, heq1, hcur1, heq2, hc3, ?_, ?_, ?_, ?_, ?_⟩
  · -- (a) the block preceding the loop ends with a branch into the check block
    calc fbF.blockOps fb.current_basic_block
        = X2.blockOps fb.current_basic_block := by rw [hF']; rfl
      _ = X1.blockOps fb.current_basic_block :=
          X1.pushOpAt_blockOps_ne _ (by omega)
      _ = B.blockOps fb.current_basic_block :=
          B.pushOpAt_blockOps_ne _ (by omega)
      _ = A.blockOps fb.current_basic_block :=
          A.move_forward_blockOps_lt (by omega)
      _ = (fb2.popLci).blockOps fb.current_basic_block :=
          (fb2.popLci).pushOp_blockOps_ne _ (by omega)
      _ = fb2.blockOps fb.current_basic_block := rfl
      _ = S2.blockOps fb.current_basic_block :=
          FunctionBuilder.blockOps_congr (p7.below _ (by
            rw [hS2]
            simp only [FunctionBuilder.pushLci_current, FunctionBuilder.move_forward_current]
            omega))
      _ = (fb1.move_forward).blockOps fb.current_basic_block :=
          (fb1.move_forward).move_forward_blockOps_lt (by
            simp only [FunctionBuilder.move_forward_length]
            omega)
      _ = fb1.blockOps fb.current_basic_block :=
          fb1.move_forward_blockOps_lt (by omega)
      _ = S1.blockOps fb.current_basic_block :=
          FunctionBuilder.blockOps_congr (s1.other _ (by
            rw [hS1]
            simp only [FunctionBuilder.move_forward_current, FunctionBuilder.pushOp_current,
              FunctionBuilder.pushScope_current]
            omega))
      _ = ((fb.pushScope).pushOp
            (OpCode.Branch (fb.current_basic_block + 1))).blockOps fb.current_basic_block :=
          ((fb.pushScope).pushOp _).move_forward_blockOps_lt (by
            rw [FunctionBuilder.pushOp_length]
            show fb.current_basic_block < fb.basic_blocks.length
            omega)
      _ = fb.blockOps fb.current_basic_block
            ++ [OpCode.Branch (fb.current_basic_block + 1)] :=
          (fb.pushScope).pushOp_blockOps_self _ (by
            show fb.current_basic_block < fb.basic_blocks.length
            omega)
  · -- (b) the body's final block ends with a branch back to the check block
    calc fbF.blockOps fb2.current_basic_block
        = X2.blockOps fb2.current_basic_block := by rw [hF']; rfl
      _ = X1.blockOps fb2.current_basic_block :=
          X1.pushOpAt_blockOps_ne _ (by omega)
      _ = B.blockOps fb2.current_basic_block :=
          B.pushOpAt_blockOps_ne _ (by omega)
      _ = A.blockOps fb2.current_basic_block :=
          A.move_forward_blockOps_lt (by omega)
      _ = (fb2.popLci).blockOps (fb2.popLci).current_basic_block
            ++ [OpCode.Branch (fb.current_basic_block + 1)] :=
          (fb2.popLci).pushOp_blockOps_self _ (by
            show fb2.current_basic_block < fb2.basic_blocks.length
            omega)
      _ = fb2.blockOps fb2.current_basic_block
            ++ [OpCode.Branch (fb.current_basic_block + 1)] := rfl
  · -- (c) the break-target block is a single branch to the after-loop block
    have hnew : (fb1.move_forward).blockOps (fb.current_basic_block + 2) = [] := by
      rw [← hlen1]
      exact fb1.move_forward_blockOps_new
    calc fbF.blockOps (fb.current_basic_block + 2)
        = X2.blockOps (fb.current_basic_block + 2) := by rw [hF']; rfl
      _ = X1.blockOps (fb.current_basic_block + 2) :=
          X1.pushOpAt_blockOps_ne _ (by omega)
      _ = B.blockOps (fb.current_basic_block + 2)
            ++ [OpCode.Branch (fb2.current_basic_block + 1)] :=
          B.pushOpAt_blockOps_self _ (by omega)
      _ = A.blockOps (fb.current_basic_block + 2)
            ++ [OpCode.Branch (fb2.current_basic_block + 1)] :=
          congrArg (fun l => l ++ [OpCode.Branch (fb2.current_basic_block + 1)])
            (A.move_forward_blockOps_lt (by omega))
      _ = (fb2.popLci).blockOps (fb.current_basic_block + 2)
            ++ [OpCode.Branch (fb2.current_basic_block + 1)] :=
          congrArg (fun l => l ++ [OpCode.Branch (fb2.current_basic_block + 1)])
            ((fb2.popLci).pushOp_blockOps_ne _ (by omega))
      _ = fb2.blockOps (fb.current_basic_block + 2)
            ++ [OpCode.Branch (fb2.current_basic_block + 1)] := rfl
      _ = S2.blockOps (fb.current_basic_block + 2)
            ++ [OpCode.Branch (fb2.current_basic_block + 1)] :=
          congrArg (fun l => l ++ [OpCode.Branch (fb2.current_basic_block + 1)])
            (FunctionBuilder.blockOps_congr (p7.below _ (by
              rw [hS2]
              simp only [FunctionBuilder.pushLci_current,
                FunctionBuilder.move_forward_current]
              omega)))
      _ = (fb1.move_forward).blockOps (fb.current_basic_block + 2)
            ++ [OpCode.Branch (fb2.current_basic_block + 1)] :=
          congrArg (fun l => l ++ [OpCode.Branch (fb2.current_basic_block + 1)])
            ((fb1.move_forward).move_forward_blockOps_lt (by
              simp only [FunctionBuilder.move_forward_length]
              omega))
      _ = [OpCode.Branch (fb2.current_basic_block + 1)] := by
          rw [hnew]
          simp
  · -- (d) the check block ends with the conditional branch
    calc fbF.blockOps (fb.current_basic_block + 1)
        = X2.blockOps (fb.current_basic_block + 1) := by rw [hF']; rfl
      _ = X1.blockOps (fb.current_basic_block + 1)
            ++ [OpCode.ConditionalBranch (fb.current_basic_block + 3)
                  (fb2.current_basic_block + 1)] :=
          X1.pushOpAt_blockOps_self _ (by omega)
      _ = B.blockOps (fb.current_basic_block + 1)
            ++ [OpCode.ConditionalBranch (fb.current_basic_block + 3)
                  (fb2.current_basic_block + 1)] :=
          congrArg (fun l => l ++ [OpCode.ConditionalBranch (fb.current_basic_block + 3)
              (fb2.current_basic_block + 1)])
            (B.pushOpAt_blockOps_ne _ (by omega))
      _ = A.blockOps (fb.current_basic_block + 1)
            ++ [OpCode.ConditionalBranch (fb.current_basic_block + 3)
                  (fb2.current_basic_block + 1)] :=
          congrArg (fun l => l ++ [OpCode.ConditionalBranch (fb.current_basic_block + 3)
              (fb2.current_basic_block + 1)])
            (A.move_forward_blockOps_lt (by omega))
      _ = (fb2.popLci).blockOps (fb.current_basic_block + 1)
            ++ [OpCode.ConditionalBranch (fb.current_basic_block + 3)
                  (fb2.current_basic_block + 1)] :=
          congrArg (fun l => l ++ [OpCode.ConditionalBranch (fb.current_basic_block + 3)
              (fb2.current_basic_block + 1)])
            ((fb2.popLci).pushOp_blockOps_ne _ (by omega))
      _ = fb2.blockOps (fb.current_basic_block + 1)
            ++ [OpCode.ConditionalBranch (fb.current_basic_block + 3)
                  (fb2.current_basic_block + 1)] := rfl
  · -- lowering continues in the fresh after-loop block
    rw [hF']; rfl

theorem C2_while_block_layout_witness :
    initFB.wf ∧
    Stmt.unrestricted_generate_code (Stmt.While Expr.Nil (Block.mk [])) initFB
      = Except.ok
        { basic_blocks := [⟨[OpCode.Branch 1]⟩,
            ⟨[OpCode.LoadNull, OpCode.ConditionalBranch 3 4]⟩,
            ⟨[OpCode.Branch 4]⟩, ⟨[OpCode.Branch 1]⟩, ⟨[]⟩],
          current_basic_block := 4, scopes := [⟨[]⟩], next_local := 0,
          lci_stack := [], upvalues := [], module_functions := [] } ∧
    ∃ fb1 fb2,
      Expr.restricted_generate_code Expr.Nil
        (((initFB.pushScope).pushOp
          (OpCode.Branch (initFB.current_basic_block + 1))).move_forward)
        = Except.ok fb1 ∧
      fb1.current_basic_block = initFB.current_basic_block + 1 ∧
      Block.unrestricted_generate_code (Block.mk [])
        (((fb1.move_forward).move_forward).pushLci
          ⟨fb1.current_basic_block + 1, initFB.current_basic_block + 1⟩) = Except.ok fb2 ∧
      initFB.current_basic_block + 3 ≤ fb2.current_basic_block ∧
      FunctionBuilder.blockOps
        { basic_blocks := [⟨[OpCode.Branch 1]⟩,
            ⟨[OpCode.LoadNull, OpCode.ConditionalBranch 3 4]⟩,
            ⟨[OpCode.Branch 4]⟩, ⟨[OpCode.Branch 1]⟩, ⟨[]⟩],
          current_basic_block := 4, scopes := [⟨[]⟩], next_local := 0,
          lci_stack := [], upvalues := [], module_functions := [] }
        initFB.current_basic_block
        = initFB.blockOps initFB.current_basic_block
            ++ [OpCode.Branch (initFB.current_basic_block + 1)] ∧
      FunctionBuilder.blockOps
        { basic_blocks := [⟨[OpCode.Branch 1]⟩,
            ⟨[OpCode.LoadNull, OpCode.ConditionalBranch 3 4]⟩,
            ⟨[OpCode.Branch 4]⟩, ⟨[OpCode.Branch 1]⟩, ⟨[]⟩],
          current_basic_block := 4, scopes := [⟨[]⟩], next_local := 0,
          lci_stack := [], upvalues := [], module_functions := [] }
        fb2.current_basic_block
        = fb2.blockOps fb2.current_basic_block
            ++ [OpCode.Branch (initFB.current_basic_block + 1)] ∧
      FunctionBuilder.blockOps
        { basic_blocks := [⟨[OpCode.Branch 1]⟩,
            ⟨[OpCode.LoadNull, OpCode.ConditionalBranch 3 4]⟩,
            ⟨[OpCode.Branch 4]⟩, ⟨[OpCode.Branch 1]⟩, ⟨[]⟩],
          current_basic_block := 4, scopes := [⟨[]⟩], next_local := 0,
          lci_stack := [], upvalues := [], module_functions := [] }
        (initFB.current_basic_block + 2)
        = [OpCode.Branch (fb2.current_basic_block + 1)] ∧
      FunctionBuilder.blockOps
        { basic_blocks := [⟨[OpCode.Branch 1]⟩,
            ⟨[OpCode.LoadNull, OpCode.ConditionalBranch 3 4]⟩,
            ⟨[OpCode.Branch 4]⟩, ⟨[OpCode.Branch 1]⟩, ⟨[]⟩],
          current_basic_block := 4, scopes := [⟨[]⟩], next_local := 0,
          lci_stack := [], upvalues := [], module_functions := [] }
        (initFB.current_basic_block + 1)
        = fb2.blockOps (initFB.current_basic_block + 1)
            ++ [OpCode.ConditionalBranch (initFB.current_basic_block + 3)
                  (fb2.current_basic_block + 1)] ∧
      (4 : Nat) = fb2.current_basic_block + 1 :=
  ⟨FunctionBuilder.wf_init,
   by simp [Stmt.unrestricted_generate_code, Expr.restricted_generate_code,
      Block.unrestricted_generate_code, genStmtList, initFB, FunctionBuilder.pushOp,
      FunctionBuilder.pushOpAt, FunctionBuilder.move_forward, FunctionBuilder.pushScope,
      FunctionBuilder.popScope, FunctionBuilder.pushLci, FunctionBuilder.popLci, listModify],
   C2_while_block_layout Expr.Nil (Block.mk []) initFB _ FunctionBuilder.wf_init
     (by simp [Stmt.unrestricted_generate_code, Expr.restricted_generate_code,
        Block.unrestricted_generate_code, genStmtList, initFB, FunctionBuilder.pushOp,
        FunctionBuilder.pushOpAt, FunctionBuilder.move_forward, FunctionBuilder.pushScope,
        FunctionBuilder.popScope, FunctionBuilder.pushLci, FunctionBuilder.popLci, listModify])⟩
